import Mathlib

/-!
Verification development for the synthrt singing-voice-synthesis inference core.

The definitions in this file are shallow embeddings of the C++ sources under
`src/dsinfer`.  Machine arithmetic on `double` is modelled by exact rational
arithmetic (`Rat`); `int64_t` by `Int`.  Functions of the repository that are
declared but whose implementation files are not part of the source snapshot
(the `inferutil` helpers `resample`, `getWordDuration`, `getPhoneCount` and
`fillRestMidiWithNearestInPlace`) are modelled from the specification text and
marked as such in their doc comments.  All other definitions are translated
directly from the named C++ functions.
-/

/-- Rounding of std::llround applied to a rational: round half away from zero. -/
def llround (q : ℚ) : ℤ :=
  if 0 ≤ q then ⌊q + 1 / 2⌋ else ⌈q - 1 / 2⌉

/-- std::clamp on Int: clamp v to the interval [lo, hi] (lo ≤ hi expected). -/
def clampZ (v lo hi : ℤ) : ℤ :=
  max lo (min v hi)

/-- C++ integer division on int64_t truncates toward zero. -/
def cppDiv (a b : ℤ) : ℤ :=
  Int.tdiv a b

/-! ## Stage state machine (synthrt ITask states) -/

/-- Stage lifecycle states of the per-stage state machine. -/
inductive ITaskState where
  | Uninitialised
  | Idle
  | Running
  | Failed
  | Terminated
deriving DecidableEq, Repr

/--
Outcome of the calls an initialisation routine makes into its collaborators,
used to drive the embedded state machines of the five stage initialisers:
whether the task-init args are non-null and carry the expected object name,
whether the inference driver is obtained, whether the stage configuration is
valid, and the outcomes of the session open calls in program order.
-/
structure InitEnv where
  argsOk : Bool
  driverOk : Bool
  configOk : Bool
  openFirstOk : Bool
  openSecondOk : Bool
deriving DecidableEq, Repr

/--
State transition of DurationInference's initialisation
(DurationInference.cpp): argument-validation failures return before any
setState call; later failures set Failed; success opens the encoder and the
predictor session and sets Idle.  Returns (success flag, resulting state).
-/
def durationInitStep (e : InitEnv) (s : ITaskState) : Bool × ITaskState :=
  if e.argsOk = false then (false, s)
  else if e.driverOk = false then (false, .Failed)
  else if e.configOk = false then (false, .Failed)
  else if e.openFirstOk = false then (false, .Failed)
  else if e.openSecondOk = false then (false, .Failed)
  else (true, .Idle)

/-- State transition of PitchInference's initialisation (PitchInference.cpp);
same structure as the duration stage: two sessions, success ends in Idle. -/
def pitchInitStep (e : InitEnv) (s : ITaskState) : Bool × ITaskState :=
  if e.argsOk = false then (false, s)
  else if e.driverOk = false then (false, .Failed)
  else if e.configOk = false then (false, .Failed)
  else if e.openFirstOk = false then (false, .Failed)
  else if e.openSecondOk = false then (false, .Failed)
  else (true, .Idle)

/-- State transition of VarianceInference's initialisation
(VarianceInference.cpp); two sessions, success ends in Idle. -/
def varianceInitStep (e : InitEnv) (s : ITaskState) : Bool × ITaskState :=
  if e.argsOk = false then (false, s)
  else if e.driverOk = false then (false, .Failed)
  else if e.configOk = false then (false, .Failed)
  else if e.openFirstOk = false then (false, .Failed)
  else if e.openSecondOk = false then (false, .Failed)
  else (true, .Idle)

/-- State transition of AcousticInference's initialisation
(AcousticInference.cpp): a single session; success sets Idle. -/
def acousticInitStep (e : InitEnv) (s : ITaskState) : Bool × ITaskState :=
  if e.argsOk = false then (false, s)
  else if e.driverOk = false then (false, .Failed)
  else if e.configOk = false then (false, .Failed)
  else if e.openFirstOk = false then (false, .Failed)
  else (true, .Idle)

/-- State transition of VocoderInference's initialisation
(VocoderInference.cpp): a single session; the success path returns without
any setState call, so the state is left unchanged. -/
def vocoderInitStep (e : InitEnv) (s : ITaskState) : Bool × ITaskState :=
  if e.argsOk = false then (false, s)
  else if e.driverOk = false then (false, .Failed)
  else if e.configOk = false then (false, .Failed)
  else if e.openFirstOk = false then (false, .Failed)
  else (true, s)

/-- All collaborator calls succeed. -/
def allOkEnv : InitEnv :=
  ⟨true, true, true, true, true⟩

/-! ## Acoustic depth discretisation (AcousticInference.cpp, start) -/

/--
Integer depth computed by AcousticInference::start when useVariableDepth is
false: llround(depth * 1000), clipped from above by maxDepth, then rounded
down to a multiple of the acceleration value by integer division and
multiplication.
-/
def intDepth (depth : ℚ) (maxDepth : ℤ) (acceleration : ℤ) : ℤ :=
  let d := llround (depth * 1000)
  let c := min d maxDepth
  cppDiv c acceleration * acceleration

/-! ## Phoneme dictionary lookups with a null key (PhonemeDict.cpp) -/

/-- Loaded dictionary contents: word mapped to its phoneme token sequence. -/
abbrev PhonemeDictModel := List (String × List String)

/-- PhonemeDict::find; a C key pointer is modelled as an Option String where
none stands for nullptr.  A null key returns the end iterator, modelled as
none; otherwise the hash-table lookup result is returned. -/
def PhonemeDict.find (d : PhonemeDictModel) (key : Option String) :
    Option (List String) :=
  match key with
  | none => none
  | some k => d.lookup k

/-- PhonemeDict::contains; a null key returns false. -/
def PhonemeDict.contains (d : PhonemeDictModel) (key : Option String) : Bool :=
  match key with
  | none => false
  | some k => (d.lookup k).isSome

/-- PhonemeDict::operator[]; a null key returns an empty phoneme list. -/
def PhonemeDict.getList (d : PhonemeDictModel) (key : Option String) :
    List String :=
  match key with
  | none => []
  | some k => (d.lookup k).getD []

/-! ## Acoustic and vocoder configuration compatibility (tools/cli/main.cpp) -/

/-- Mel-spectrogram log base declared by a configuration. -/
inductive MelBase where
  | e
  | ten
deriving DecidableEq, Repr

/-- Mel filter-bank scale declared by a configuration. -/
inductive MelScale where
  | slaney
  | htk
deriving DecidableEq, Repr

/-- The nine acoustic-configuration fields compared by the pipeline driver. -/
structure AcousticConfiguration where
  sampleRate : ℤ
  hopSize : ℤ
  winSize : ℤ
  fftSize : ℤ
  melChannels : ℤ
  melMinFreq : ℚ
  melMaxFreq : ℚ
  melBase : MelBase
  melScale : MelScale
deriving DecidableEq, Repr

/-- The nine vocoder-configuration fields compared by the pipeline driver. -/
structure VocoderConfiguration where
  sampleRate : ℤ
  hopSize : ℤ
  winSize : ℤ
  fftSize : ℤ
  melChannels : ℤ
  melMinFreq : ℚ
  melMaxFreq : ℚ
  melBase : MelBase
  melScale : MelScale
deriving DecidableEq, Repr

/--
The unmatchedFields vector built by exec in tools/cli/main.cpp: one
field-name entry is appended for every field of the acoustic configuration
that differs from the vocoder configuration, in the program's order.
-/
def unmatchedFields (a : AcousticConfiguration) (v : VocoderConfiguration) :
    List String :=
  (if a.sampleRate ≠ v.sampleRate then ["sampleRate"] else []) ++
  (if a.hopSize ≠ v.hopSize then ["hopSize"] else []) ++
  (if a.winSize ≠ v.winSize then ["winSize"] else []) ++
  (if a.fftSize ≠ v.fftSize then ["fftSize"] else []) ++
  (if a.melChannels ≠ v.melChannels then ["melChannels"] else []) ++
  (if a.melMinFreq ≠ v.melMinFreq then ["melMinFreq"] else []) ++
  (if a.melMaxFreq ≠ v.melMaxFreq then ["melMaxFreq"] else []) ++
  (if a.melBase ≠ v.melBase then ["melBase"] else []) ++
  (if a.melScale ≠ v.melScale then ["melScale"] else [])

/-- Error message thrown on a compatibility mismatch (stdc::join uses the
separator ", "). -/
def mismatchMessage (fields : List String) : String :=
  "acoustic and vocoder config mismatch: " ++ String.intercalate ", " fields

/-- The compatibility gate of exec: fail with the mismatch message exactly
when at least one of the nine compared fields differs. -/
def checkAcousticVocoderCompat (a : AcousticConfiguration)
    (v : VocoderConfiguration) : Except String Unit :=
  if unmatchedFields a v = [] then .ok ()
  else .error (mismatchMessage (unmatchedFields a v))

/--
The pipeline driver after the import checks: the compatibility gate runs
first, and only then are the five stages executed.  The stage executions are
abstracted as one function from the initial state to the final audio bytes,
universally quantified in the theorems, which captures that a compatibility
failure is reported before any model runs.
-/
def runPipeline (a : AcousticConfiguration) (v : VocoderConfiguration)
    (stages : Unit → Except String (List ℚ)) : Except String (List ℚ) := do
  let _ ← checkAcousticVocoderCompat a v
  stages ()

/-- Declarative description of the mismatched fields: the name of every
field whose acoustic value differs from the vocoder value, in field order. -/
def mismatchedNamesSpec (a : AcousticConfiguration) (v : VocoderConfiguration) :
    List String :=
  (([("sampleRate", decide (a.sampleRate ≠ v.sampleRate)),
     ("hopSize", decide (a.hopSize ≠ v.hopSize)),
     ("winSize", decide (a.winSize ≠ v.winSize)),
     ("fftSize", decide (a.fftSize ≠ v.fftSize)),
     ("melChannels", decide (a.melChannels ≠ v.melChannels)),
     ("melMinFreq", decide (a.melMinFreq ≠ v.melMinFreq)),
     ("melMaxFreq", decide (a.melMaxFreq ≠ v.melMaxFreq)),
     ("melBase", decide (a.melBase ≠ v.melBase)),
     ("melScale", decide (a.melScale ≠ v.melScale))]).filter
       (fun p => p.2)).map (fun p => p.1)

/-- Acoustic configuration of the spec's compatibility scenario. -/
def acousticCfgHop512 : AcousticConfiguration :=
  ⟨44100, 512, 2048, 2048, 128, 40, 16000, .e, .slaney⟩

/-- Vocoder configuration of the spec's compatibility scenario: only hopSize
differs from acousticCfgHop512. -/
def vocoderCfgHop256 : VocoderConfiguration :=
  ⟨44100, 256, 2048, 2048, 128, 40, 16000, .e, .slaney⟩

/-! ## Retake masks (PitchInference.cpp and VarianceInference.cpp, start) -/

/--
Retake mask built by PitchInference::start for the pitch parameter over
targetLength frames: the container starts all true; with a retake window the
start and end times are converted to frame indices by llround and clamped to
[0, targetLength]; equal frames blank the whole mask; a proper interval
blanks the frames before the start frame and from the end frame on; a
reversed interval leaves the container untouched.
-/
def pitchRetakeMask (frameWidth : ℚ) (targetLength : ℕ)
    (retake : Option (ℚ × ℚ)) : List Bool :=
  match retake with
  | none => List.replicate targetLength true
  | some (s, e) =>
    let retakeStartFrame := clampZ (llround (s / frameWidth)) 0 targetLength
    let retakeEndFrame := clampZ (llround (e / frameWidth)) 0 targetLength
    if retakeStartFrame = retakeEndFrame then List.replicate targetLength false
    else if retakeStartFrame < retakeEndFrame then
      (List.range targetLength).map
        (fun (i : ℕ) => decide (retakeStartFrame ≤ (i : ℤ) ∧ (i : ℤ) < retakeEndFrame))
    else List.replicate targetLength true

/--
Slab of the combined variance retake tensor belonging to one prediction
(VarianceInference::start): same construction as the pitch mask except that
a non-finite or negative start defaults to frame 0 and a non-finite or
negative end defaults to targetLength (rationals are always finite, so only
the sign tests remain).
-/
def varianceRetakeSlab (frameWidth : ℚ) (targetLength : ℕ)
    (retake : Option (ℚ × ℚ)) : List Bool :=
  match retake with
  | none => List.replicate targetLength true
  | some (s, e) =>
    let retakeStartFrame :=
      if 0 ≤ s then clampZ (llround (s / frameWidth)) 0 targetLength else 0
    let retakeEndFrame :=
      if 0 ≤ e then clampZ (llround (e / frameWidth)) 0 targetLength
      else (targetLength : ℤ)
    if retakeStartFrame = retakeEndFrame then List.replicate targetLength false
    else if retakeStartFrame < retakeEndFrame then
      (List.range targetLength).map
        (fun (i : ℕ) => decide (retakeStartFrame ≤ (i : ℤ) ∧ (i : ℤ) < retakeEndFrame))
    else List.replicate targetLength true

/--
The combined boolean retake tensor of VarianceInference::start, declared
with shape [1, targetLength, nPredictions]: the buffer holds, for prediction
j, the contiguous region [j * targetLength, (j+1) * targetLength), filled
from the j-th matching parameter's retake window.  The j-th entry of the
argument list is that parameter's retake window (none when the parameter is
absent or carries no window).
-/
def varianceCombinedRetake (frameWidth : ℚ) (targetLength : ℕ)
    (retakes : List (Option (ℚ × ℚ))) : List Bool :=
  (retakes.map (varianceRetakeSlab frameWidth targetLength)).flatten

/--
Mask described by the claim's words: with a window, bits at frames outside
[round(start/frameWidth), round(end/frameWidth)) are false and bits inside
are true; without a window every bit is true.
-/
def claimedRetakeMask (frameWidth : ℚ) (targetLength : ℕ)
    (retake : Option (ℚ × ℚ)) : List Bool :=
  match retake with
  | none => List.replicate targetLength true
  | some (s, e) =>
    (List.range targetLength).map
      (fun (i : ℕ) => decide (llround (s / frameWidth) ≤ (i : ℤ) ∧
        (i : ℤ) < llround (e / frameWidth)))

/-! ## Score data model (Api Common L1 input structures) -/

/-- A phone of an input word: its start time in seconds from the word
origin (token and speakers are irrelevant to the embedded claims). -/
structure InputPhoneInfo where
  start : ℚ
deriving DecidableEq, Repr

/-- A note of an input word: midi key, cent offset, duration in seconds,
rest flag. -/
structure InputNoteInfo where
  key : ℤ
  cents : ℤ
  duration : ℚ
  is_rest : Bool
deriving DecidableEq, Repr

/-- An input word: its phones and notes. -/
structure InputWordInfo where
  phones : List InputPhoneInfo
  notes : List InputNoteInfo
deriving DecidableEq, Repr

/-- Modelled from the spec: inferutil::getPhoneCount (implementation not in
the source snapshot) counts the phones of all words. -/
def getPhoneCount (words : List InputWordInfo) : ℕ :=
  (words.map (fun w => w.phones.length)).sum

/-- Modelled from the spec: inferutil::getWordDuration (implementation not
in the source snapshot) is the word's score-level note-duration sum. -/
def getWordDuration (w : InputWordInfo) : ℚ :=
  (w.notes.map (fun n => n.duration)).sum

/-! ## Duration rescaling (DurationInference.cpp, start, result scaling) -/

/-- In-place multiplication of the slice [b, b+n) of a vector by a factor,
as the scaling loop does with durationVector. -/
def scaleSlice (v : List ℚ) (b n : ℕ) (f : ℚ) : List ℚ :=
  v.take b ++ ((v.drop b).take n).map (fun x => x * f) ++ v.drop (b + n)

/--
The per-word scaling loop of DurationInference::start: for each word the
predicted durations of its phones are multiplied by wordDur / predWordDur;
a word without phones raises the index-out-of-bounds error; a cursor past
the vector stops the loop (break) leaving the rest untouched; a zero
predicted word duration raises the invalid-duration error (the C++ message
carries the offending value as a suffix, elided here; NaN and infinity do
not exist in exact rational arithmetic).
-/
def rescaleGo : List InputWordInfo → List ℚ → ℕ → Except String (List ℚ)
  | [], v, _ => .ok v
  | w :: ws, v, b =>
    if w.phones.length = 0 then
      .error "error scaling duration results: index out of bounds"
    else if b ≥ v.length ∨ b + w.phones.length > v.length then .ok v
    else if ((v.drop b).take w.phones.length).sum = 0 then
      .error "error scaling duration results: invalid predicted word duration"
    else
      rescaleGo ws
        (scaleSlice v b w.phones.length
          (getWordDuration w / ((v.drop b).take w.phones.length).sum))
        (b + w.phones.length)

/-- The scaling loop followed by the predicted-phoneme-count check of
DurationInference::start. -/
def rescaleDurations (words : List InputWordInfo) (durs : List ℚ) :
    Except String (List ℚ) :=
  match rescaleGo words durs 0 with
  | .error msg => .error msg
  | .ok v =>
    if v.length ≠ getPhoneCount words then
      .error "predicted phoneme count mismatch"
    else .ok v

/-- Number of phones of the words before word j. -/
def phoneOffset (words : List InputWordInfo) (j : ℕ) : ℕ :=
  ((words.take j).map (fun w => w.phones.length)).sum

/-- Sum of the n entries of a vector starting at position b. -/
def sliceSum (v : List ℚ) (b n : ℕ) : ℚ :=
  ((v.drop b).take n).sum

/-! ## Duration-stage ph_midi preprocessing (DurationInference.cpp) -/

/-- Running cumulative sums, as the cumDur vector of preprocessPhonemeMidi:
entry i is the sum of the first i+1 values. -/
def cumSums (acc : ℚ) : List ℚ → List ℚ
  | [] => []
  | d :: ds => (acc + d) :: cumSums (acc + d) ds

/-- Cumulative note durations of a word. -/
def noteCumDur (notes : List InputNoteInfo) : List ℚ :=
  cumSums 0 (notes.map (fun n => n.duration))

/-- Note index assigned to a phone by preprocessPhonemeMidi: advance while
the phone's start is strictly greater than the cumulative duration, then
clamp to the last note. -/
def phoneNoteIndex (notes : List InputNoteInfo) (start : ℚ) : ℕ :=
  let idx := ((noteCumDur notes).takeWhile (fun c => decide (c < start))).length
  if idx ≥ notes.length then notes.length - 1 else idx

/-- Rest flag and pre-fill midi value (0 for a rest, the note key
otherwise) of each phone of a word, in order. -/
def wordPhoneEntries (w : InputWordInfo) : List (Bool × ℤ) :=
  w.phones.map (fun ph =>
    let nt := w.notes.getD (phoneNoteIndex w.notes ph.start) ⟨0, 0, 0, true⟩
    (nt.is_rest, if nt.is_rest then 0 else nt.key))

/-- Distance between two indices. -/
def natDist (a b : ℕ) : ℕ :=
  max a b - min a b

/-- Modelled from the spec: the index of the non-rest entry nearest to
position i, ties favouring the left (the scan keeps the earlier index on
equal distance).  Part of inferutil::fillRestMidiWithNearestInPlace, whose
implementation is not in the source snapshot. -/
def nearestNonRestIdx (flags : List Bool) (i : ℕ) : Option ℕ :=
  (List.range flags.length).foldl
    (fun best j =>
      if flags.getD j true = false then
        match best with
        | none => some j
        | some b => if natDist j i < natDist b i then some j else best
      else best) none

/-- Value of one filled entry: a rest position takes the value at the
nearest non-rest index, every other position keeps its own value. -/
def fillValue {α : Type} [Inhabited α] (vals : List α) (flags : List Bool)
    (i : ℕ) : α :=
  if flags.getD i false then
    match nearestNonRestIdx flags i with
    | some j => vals.getD j default
    | none => vals.getD i default
  else vals.getD i default

/-- Modelled from the spec: inferutil::fillRestMidiWithNearestInPlace
(implementation not in the source snapshot) replaces every rest entry with
the nearest non-rest entry, ties favouring the left, and fails only when a
non-empty sequence consists entirely of rests. -/
def fillRestMidiWithNearest {α : Type} [Inhabited α] (vals : List α)
    (flags : List Bool) : Option (List α) :=
  if vals.isEmpty = false ∧ flags.all (fun b => b) then none
  else some ((List.range vals.length).map (fillValue vals flags))

/--
The word loop of preprocessPhonemeMidi: words without notes are skipped;
for each remaining word the per-phone rest flags and pre-fill midi values
are appended, and the rest entries of the accumulated vector are filled
with the nearest non-rest entries (failing when everything so far is a
rest).
-/
def ppmGo : List InputWordInfo → List ℤ → List Bool → Except String (List ℤ)
  | [], phMidi, _ => .ok phMidi
  | w :: ws, phMidi, isRest =>
    if w.notes.isEmpty then ppmGo ws phMidi isRest
    else
      match fillRestMidiWithNearest
          (phMidi ++ (wordPhoneEntries w).map (fun p => p.2))
          (isRest ++ (wordPhoneEntries w).map (fun p => p.1)) with
      | none => .error "failed to fill rest notes"
      | some filled =>
        ppmGo ws filled (isRest ++ (wordPhoneEntries w).map (fun p => p.1))

/-- preprocessPhonemeMidi of DurationInference.cpp (the trailing tensor
creation is elided: the result is the final phMidi vector). -/
def preprocessPhonemeMidi (words : List InputWordInfo) : Except String (List ℤ) :=
  ppmGo words [] []

/-- The pre-fill entries of a whole word list: flags and midi values of
every phone of every word that has notes. -/
def phonemeMidiPreFill (words : List InputWordInfo) : List (Bool × ℤ) :=
  ((words.filter (fun w => !w.notes.isEmpty)).map wordPhoneEntries).flatten

/-- Note index described by the claim's words: the note whose cumulative
duration first strictly exceeds the phone's start, clamped to the last
note. -/
def phoneNoteIndexClaim (notes : List InputNoteInfo) (start : ℚ) : ℕ :=
  let idx := ((noteCumDur notes).takeWhile (fun c => decide (c ≤ start))).length
  if idx ≥ notes.length then notes.length - 1 else idx

/-- Per-phone entries under the claim's strict-exceeds assignment. -/
def wordPhoneEntriesClaim (w : InputWordInfo) : List (Bool × ℤ) :=
  w.phones.map (fun ph =>
    let nt := w.notes.getD (phoneNoteIndexClaim w.notes ph.start) ⟨0, 0, 0, true⟩
    (nt.is_rest, if nt.is_rest then 0 else nt.key))

/-- Ph_midi vector described by the claim: strict-exceeds assignment,
rests yield 0 pre-fill, then one global nearest fill. -/
def phonemeMidiClaim (words : List InputWordInfo) : Option (List ℤ) :=
  let entries :=
    ((words.filter (fun w => !w.notes.isEmpty)).map wordPhoneEntriesClaim).flatten
  fillRestMidiWithNearest (entries.map (fun p => p.2))
    (entries.map (fun p => p.1))

/-! ## Phoneme dictionary file parsing (PhonemeDict.cpp, load) -/

/-- Character class treated as a line break by the parser. -/
def isLineBreakC (c : Char) : Bool :=
  c = '\r' || c = '\n'

/-- Character class stopping the key scan: a tab or a line break. -/
def isTabOrBreakC (c : Char) : Bool :=
  c = '\t' || isLineBreakC c

/-- Hash-map assignment (map[key] = entry): replace the value of an
existing key, otherwise append a new entry. -/
def assignEntry (m : PhonemeDictModel) (k : String) (v : List String) :
    PhonemeDictModel :=
  match m with
  | [] => [(k, v)]
  | (k0, v0) :: rest =>
    if k0 = k then (k, v) :: rest else (k0, v0) :: assignEntry rest k v

/-- The NUL-separated value tokens produced by the value scan: the text
between the tab and the line break split at every single space (empty
tokens included, exactly as the space-to-NUL rewriting yields them). -/
def splitTokens (cs : List Char) : List String :=
  (cs.splitOn ' ').map (fun l => String.mk l)

/--
The line-traversal loop of PhonemeDict::load.  The fuel argument (always at
least the buffer length plus one at the top call) only discharges
termination: each iteration consumes at least one character.  One
iteration: skip line-break characters; stop at the end of the buffer; scan
for a tab starting at the second character of the line (a tab at the first
position is not found); on a line break or the buffer end before any tab,
skip the line; on a tab, the value text runs to the next line break, and
the entry is assigned into the map.  If the buffer ends inside the value
scan, the final token is not counted (value_cnt is only incremented at
separators), hence the dropLast; loading always appends a final newline,
making that case unreachable.
-/
def parseLoopF : ℕ → List Char → PhonemeDictModel → PhonemeDictModel
  | 0, _, m => m
  | fuel + 1, cs, m =>
    match cs.dropWhile isLineBreakC with
    | [] => m
    | c0 :: rest =>
      match rest.dropWhile (fun c => !isTabOrBreakC c) with
      | [] => m
      | c1 :: rest3 =>
        if c1 = '\t' then
          match rest3.dropWhile (fun c => !isLineBreakC c) with
          | [] =>
            assignEntry m
              (String.mk (c0 :: rest.takeWhile (fun c => !isTabOrBreakC c)))
              ((splitTokens (rest3.takeWhile (fun c => !isLineBreakC c))).dropLast)
          | _ :: rest5 =>
            parseLoopF fuel rest5
              (assignEntry m
                (String.mk (c0 :: rest.takeWhile (fun c => !isTabOrBreakC c)))
                (splitTokens (rest3.takeWhile (fun c => !isLineBreakC c))))
        else parseLoopF fuel rest3 m

/-- PhonemeDict::load on the given file bytes: the buffer is extended by
one final newline (filebuf[file_size] = newline), then traversed. -/
def loadDict (cs : List Char) : PhonemeDictModel :=
  parseLoopF (cs.length + 1) (cs ++ ['\n']) []

/-- The maximal line-break-free segments of the buffer, in order (empty
segments between consecutive breaks do not appear). -/
def specLinesF : ℕ → List Char → List (List Char)
  | 0, _ => []
  | fuel + 1, cs =>
    match cs.dropWhile isLineBreakC with
    | [] => []
    | c0 :: rest =>
      (c0 :: rest.takeWhile (fun c => !isLineBreakC c)) ::
        specLinesF fuel (rest.dropWhile (fun c => !isLineBreakC c))

/-- The lines of a buffer. -/
def specLines (cs : List Char) : List (List Char) :=
  specLinesF (cs.length + 1) cs

/-- Entry contributed by one line, following the amended claim: the first
tab at position at least 1 splits the line into the key before it and the
space-separated token text after it; a line without such a tab yields no
entry. -/
def specEntry (line : List Char) : Option (String × List String) :=
  match line with
  | [] => none
  | c0 :: rest =>
    if rest.findIdx (fun c => c = '\t') < rest.length then
      some (String.mk (c0 :: rest.take (rest.findIdx (fun c => c = '\t'))),
        splitTokens (rest.drop (rest.findIdx (fun c => c = '\t') + 1)))
    else none

/-- Dictionary contents described line by line (amended claim). -/
def specLoadDict (cs : List Char) : PhonemeDictModel :=
  ((specLines (cs ++ ['\n'])).filterMap specEntry).foldl
    (fun m e => assignEntry m e.1 e.2) []

/-- Entry contributed by one line as the claim literally reads: any line
containing a tab maps the text before the (first) tab to the tokens after
it. -/
def claimEntry (line : List Char) : Option (String × List String) :=
  if line.findIdx (fun c => c = '\t') < line.length then
    some (String.mk (line.take (line.findIdx (fun c => c = '\t'))),
      splitTokens (line.drop (line.findIdx (fun c => c = '\t') + 1)))
  else none

/-- Dictionary contents as the claim literally reads. -/
def claimLoadDict (cs : List Char) : PhonemeDictModel :=
  ((specLines (cs ++ ['\n'])).filterMap claimEntry).foldl
    (fun m e => assignEntry m e.1 e.2) []

/-- Whether the buffer is empty or ends in a line break. -/
def terminatedB (cs : List Char) : Bool :=
  match cs.getLast? with
  | none => true
  | some c => isLineBreakC c

/-! ## Variance write-back into the score parameters (tools/cli/main.cpp) -/

/-- A parameter attached to a score context (tag, values, interval and the
optional retake window). -/
structure ScoreParam where
  tag : String
  values : List ℚ
  interval : ℚ
  retake : Option (ℚ × ℚ)

/-- One predicted parameter of a variance result. -/
structure VariancePrediction where
  tag : String
  values : List ℚ
  interval : ℚ

/-- One iteration of the first write-back loop of `runVariance` in
tools/cli/main.cpp: `originalParam` is `input.input->parameters[i]` for the
PREDICTION index `i`; out-of-range access (fewer parameters than schema
predictions) is undefined behaviour, modelled as `none`.  The inner loop
takes the first prediction whose tag equals that parameter's tag and
overwrites the parameter in place, clearing its retake window and marking
index `i` satisfied. -/
def writeBackStep (preds : List VariancePrediction)
    (st : Option (List ScoreParam × List Bool)) (i : ℕ) :
    Option (List ScoreParam × List Bool) :=
  match st with
  | none => none
  | some (ps, sat) =>
    match ps.get? i with
    | none => none
    | some op =>
      match preds.find? (fun p => decide (p.tag = op.tag)) with
      | none => some (ps, sat)
      | some pr =>
        some (ps.set i ⟨op.tag, pr.values, pr.interval, none⟩, sat.set i true)

/-- One iteration of the second write-back loop: an unsatisfied prediction
index appends the first prediction whose tag is `schema->predictions[i]` to
the parameter list (the emplaced prediction carries no retake window). -/
def writeBackAppend (schemaPredictions : List String)
    (preds : List VariancePrediction) (ps : List ScoreParam)
    (sat : List Bool) (i : ℕ) : List ScoreParam :=
  if sat.getD i false then ps
  else
    match preds.find? (fun p => decide (p.tag = schemaPredictions.getD i "")) with
    | none => ps
    | some pr => ps ++ [⟨pr.tag, pr.values, pr.interval, none⟩]

/-- The whole write-back of a variance result into the score parameters
(tools/cli/main.cpp, the two loops after the variance inference): phase one
walks the prediction indices, reading `parameters[i]` positionally; phase
two appends the predictions whose index was not satisfied.  (The C++ moves
each prediction's value vector out on use; no input considered here reads
a prediction twice, so the values are modelled as copied.) -/
def varianceWriteBack (schemaPredictions : List String)
    (preds : List VariancePrediction) (params : List ScoreParam) :
    Option (List ScoreParam) :=
  match (List.range schemaPredictions.length).foldl
      (writeBackStep preds)
      (some (params, List.replicate schemaPredictions.length false)) with
  | none => none
  | some (ps, sat) =>
    some ((List.range schemaPredictions.length).foldl
      (fun acc i => writeBackAppend schemaPredictions preds acc sat i) ps)

/-! ## Acoustic parameter preprocessing (AcousticInference.cpp, run) -/

/-- The parameter tags of the score input (Api Common L1 tag set used by the
acoustic stage). -/
inductive ParamTag where
  | Pitch
  | F0
  | ToneShift
  | Gender
  | Velocity
  | Energy
  | Breathiness
  | Voicing
  | Tension
  | MouthOpening
deriving DecidableEq

/-- The display name of a tag, as used in error messages. -/
def ParamTag.display : ParamTag → String
  | ParamTag.Pitch => "pitch"
  | ParamTag.F0 => "f0"
  | ParamTag.ToneShift => "tone_shift"
  | ParamTag.Gender => "gender"
  | ParamTag.Velocity => "velocity"
  | ParamTag.Energy => "energy"
  | ParamTag.Breathiness => "breathiness"
  | ParamTag.Voicing => "voicing"
  | ParamTag.Tension => "tension"
  | ParamTag.MouthOpening => "mouth_opening"

/-- An input parameter of the acoustic stage (tag, dense values, sampling
interval in seconds). -/
structure InputParameter where
  tag : ParamTag
  values : List ℚ
  interval : ℚ

/-- Modelled from the spec: inferutil::resample (values, sourceInterval,
targetInterval, targetLength, alignLastValue).  An empty value list yields
an empty result; otherwise the source curve (value i at time
i*sourceInterval, linearly interpolated) is sampled at times
k*targetInterval for k < targetLength, holding the last value past the end
when alignLastValue is true and producing zero there otherwise, matching
the spec scenario [0,10] at interval 1 resampled to interval 0.5 and
length 4 giving [0,5,10,10]. -/
def resample (values : List ℚ) (srcIvl tgtIvl : ℚ) (targetLength : ℕ)
    (alignLast : Bool) : List ℚ :=
  match values with
  | [] => []
  | v0 :: _ =>
    (List.range targetLength).map (fun (k : ℕ) =>
      let t : ℚ := (k : ℚ) * tgtIvl
      let i : ℤ := ⌊t / srcIvl⌋
      if i < 0 then v0
      else if i.toNat + 1 < values.length then
        let vi := values.getD i.toNat 0
        let vj := values.getD (i.toNat + 1) 0
        vi + (vj - vi) * (t - (i : ℚ) * srcIvl) / srcIvl
      else if i.toNat + 1 = values.length then values.getD i.toNat 0
      else if alignLast then values.getD (values.length - 1) 0
      else 0)

/-- A tensor attached to the session input.  The two f0 constructors keep
the transcendental float conversions symbolic by carrying their operands:
`f0FromMidi l` stands for the tensor of 440*2^((m-69)/12) over m in l (the
additive tone shift in cents/100 is already mixed into l), and
`f0FromHz l ts` for the tensor of l_i * 2^(ts_i/1200) (l_i when ts is
absent).  No claim inspects those float values. -/
inductive TensorVal where
  | filled (shape : List ℤ) (v : ℚ)
  | samples (vals : List ℚ)
  | f0FromMidi (midi : List ℚ)
  | f0FromHz (hz : List ℚ) (toneShiftCents : Option (List ℚ))

/-- sessionInput->inputs[key] = v: overwrite the entry of the key or append
a new one. -/
def setInput (m : List (String × TensorVal)) (k : String) (v : TensorVal) :
    List (String × TensorVal) :=
  match m with
  | [] => [(k, v)]
  | (k0, v0) :: rest =>
    if k0 = k then (k, v) :: rest else (k0, v0) :: setInput rest k v

/-- Lookup of a session input by key. -/
def lookupInput (m : List (String × TensorVal)) (k : String) :
    Option TensorVal :=
  m.lookup k

/-- The running state of the acoustic parameter loop: the session inputs
assembled so far, the seven satisfy flags, and the captured F0, Pitch and
ToneShift parameters (last occurrence wins, as the C++ pointer is
overwritten). -/
structure AcousticLoopState where
  inputs : List (String × TensorVal)
  satisfyGender : Bool
  satisfyVelocity : Bool
  satisfyEnergy : Bool
  satisfyBreathiness : Bool
  satisfyVoicing : Bool
  satisfyTension : Bool
  satisfyMouthOpening : Bool
  pF0 : Option InputParameter
  pPitch : Option InputParameter
  pToneShift : Option InputParameter

/-- The satisfy flags before the loop: a flag starts true exactly when the
configuration does NOT declare the parameter. -/
def initAcousticState (cfg : List ParamTag) : AcousticLoopState :=
  ⟨[], !decide (ParamTag.Gender ∈ cfg), !decide (ParamTag.Velocity ∈ cfg),
    !decide (ParamTag.Energy ∈ cfg), !decide (ParamTag.Breathiness ∈ cfg),
    !decide (ParamTag.Voicing ∈ cfg), !decide (ParamTag.Tension ∈ cfg),
    !decide (ParamTag.MouthOpening ∈ cfg), none, none, none⟩

/-- One iteration of the parameter loop (AcousticInference.cpp:256-356),
dispatching on the parameter's tag as the C++ if-chain of tag tests does:
F0, Pitch and ToneShift are captured and skipped; every other parameter is
resampled to the frame grid; an empty resample of Gender or Velocity
attaches a [1, targetLength] tensor filled with 0 resp. 1 (regardless of
the satisfy flag); any other resample whose length differs from
targetLength fails the stage; a successful resample is attached under its
tag's key when the corresponding satisfy flag is still false, and is
dropped otherwise. -/
def acousticParamStep (fw : ℚ) (T : ℕ) (st : AcousticLoopState)
    (param : InputParameter) : Except String AcousticLoopState :=
  match param.tag with
  | ParamTag.F0 => Except.ok { st with pF0 := some param }
  | ParamTag.Pitch => Except.ok { st with pPitch := some param }
  | ParamTag.ToneShift => Except.ok { st with pToneShift := some param }
  | ParamTag.Gender =>
    let resampled := resample param.values param.interval fw T true
    if resampled = [] then
      Except.ok { st with
        inputs := setInput st.inputs "gender" (TensorVal.filled [1, (T : ℤ)] 0),
        satisfyGender := true }
    else if resampled.length ≠ T then
      Except.error ("parameter " ++ param.tag.display ++ " resample failed")
    else if st.satisfyGender = false then
      Except.ok { st with
        inputs := setInput st.inputs "gender" (TensorVal.samples resampled),
        satisfyGender := true }
    else Except.ok st
  | ParamTag.Velocity =>
    let resampled := resample param.values param.interval fw T true
    if resampled = [] then
      Except.ok { st with
        inputs := setInput st.inputs "velocity" (TensorVal.filled [1, (T : ℤ)] 1),
        satisfyVelocity := true }
    else if resampled.length ≠ T then
      Except.error ("parameter " ++ param.tag.display ++ " resample failed")
    else if st.satisfyVelocity = false then
      Except.ok { st with
        inputs := setInput st.inputs "velocity" (TensorVal.samples resampled),
        satisfyVelocity := true }
    else Except.ok st
  | ParamTag.Energy =>
    let resampled := resample param.values param.interval fw T true
    if resampled.length ≠ T then
      Except.error ("parameter " ++ param.tag.display ++ " resample failed")
    else if st.satisfyEnergy = false then
      Except.ok { st with
        inputs := setInput st.inputs "energy" (TensorVal.samples resampled),
        satisfyEnergy := true }
    else Except.ok st
  | ParamTag.Breathiness =>
    let resampled := resample param.values param.interval fw T true
    if resampled.length ≠ T then
      Except.error ("parameter " ++ param.tag.display ++ " resample failed")
    else if st.satisfyBreathiness = false then
      Except.ok { st with
        inputs := setInput st.inputs "breathiness" (TensorVal.samples resampled),
        satisfyBreathiness := true }
    else Except.ok st
  | ParamTag.Voicing =>
    let resampled := resample param.values param.interval fw T true
    if resampled.length ≠ T then
      Except.error ("parameter " ++ param.tag.display ++ " resample failed")
    else if st.satisfyVoicing = false then
      Except.ok { st with
        inputs := setInput st.inputs "voicing" (TensorVal.samples resampled),
        satisfyVoicing := true }
    else Except.ok st
  | ParamTag.Tension =>
    let resampled := resample param.values param.interval fw T true
    if resampled.length ≠ T then
      Except.error ("parameter " ++ param.tag.display ++ " resample failed")
    else if st.satisfyTension = false then
      Except.ok { st with
        inputs := setInput st.inputs "tension" (TensorVal.samples resampled),
        satisfyTension := true }
    else Except.ok st
  | ParamTag.MouthOpening =>
    let resampled := resample param.values param.interval fw T true
    if resampled.length ≠ T then
      Except.error ("parameter " ++ param.tag.display ++ " resample failed")
    else if st.satisfyMouthOpening = false then
      Except.ok { st with
        inputs := setInput st.inputs "mouth_opening" (TensorVal.samples resampled),
        satisfyMouthOpening := true }
    else Except.ok st

/-- The parameter loop over a parameter list from a given state, stopping
at the first failing parameter. -/
def acousticLoopGo (fw : ℚ) (T : ℕ) :
    AcousticLoopState → List InputParameter → Except String AcousticLoopState
  | st, [] => Except.ok st
  | st, p :: ps =>
    match acousticParamStep fw T st p with
    | Except.error e => Except.error e
    | Except.ok st' => acousticLoopGo fw T st' ps

/-- The whole parameter loop over the acoustic input's parameter list. -/
def acousticLoop (cfg : List ParamTag) (fw : ℚ) (T : ℕ)
    (ps : List InputParameter) : Except String AcousticLoopState :=
  acousticLoopGo fw T (initAcousticState cfg) ps

/-- processF0Param (AcousticInference.cpp:360-420): resample the chosen
parameter with last-value alignment, fail on a length mismatch, mix in a
captured non-empty tone shift (resampled without alignment, additively in
cents/100 for a midi pitch, symbolically as a 2^(c/1200) factor for an
f0-in-Hz curve), and yield the f0 tensor. -/
def processF0Param (fw : ℚ) (T : ℕ) (pToneShift : Option InputParameter)
    (param : InputParameter) (convertToF0 : Bool) : Except String TensorVal :=
  let samples := resample param.values param.interval fw T true
  if samples.length ≠ T then
    Except.error ("parameter " ++ param.tag.display ++ " resample failed")
  else
    match pToneShift with
    | some ts =>
      if ts.values ≠ [] then
        let tsS := resample ts.values ts.interval fw T false
        if tsS.length ≠ T then
          Except.error ("parameter " ++ ts.tag.display ++ " resample failed")
        else if convertToF0 then
          Except.ok (TensorVal.f0FromMidi
            (List.zipWith (fun a b => a + b / 100) samples tsS))
        else Except.ok (TensorVal.f0FromHz samples (some tsS))
      else if convertToF0 then Except.ok (TensorVal.f0FromMidi samples)
      else Except.ok (TensorVal.f0FromHz samples none)
    | none =>
      if convertToF0 then Except.ok (TensorVal.f0FromMidi samples)
      else Except.ok (TensorVal.f0FromHz samples none)

/-- The f0 source selection (AcousticInference.cpp:421-437): an F0
parameter is used as is; otherwise a Pitch parameter is converted from
midi; otherwise the stage fails. -/
def selectF0 (fw : ℚ) (T : ℕ) (st : AcousticLoopState) :
    Except String TensorVal :=
  match st.pF0 with
  | some p => processF0Param fw T st.pToneShift p false
  | none =>
    match st.pPitch with
    | some p => processF0Param fw T st.pToneShift p true
    | none => Except.error "parameter f0 or pitch missing"

/-- The message of the missing-required-parameter failure
(AcousticInference.cpp:441-452). -/
def missingMsg (st : AcousticLoopState) : String :=
  "some required parameters missing:" ++
    (if st.satisfyEnergy = false then " \"energy\"" else "") ++
    (if st.satisfyBreathiness = false then " \"breathiness\"" else "") ++
    (if st.satisfyVoicing = false then " \"voicing\"" else "") ++
    (if st.satisfyTension = false then " \"tension\"" else "")

/-- The acoustic parameter preprocessing (AcousticInference.cpp:237-452):
run the parameter loop, process the f0 source, then fail if one of the
energy, breathiness, voicing or tension requirements is unsatisfied,
naming each unsatisfied one; on success the assembled session inputs are
returned. -/
def acousticParamsRun (cfg : List ParamTag) (fw : ℚ) (T : ℕ)
    (ps : List InputParameter) : Except String (List (String × TensorVal)) :=
  match acousticLoop cfg fw T ps with
  | Except.error e => Except.error e
  | Except.ok st =>
    match selectF0 fw T st with
    | Except.error e => Except.error e
    | Except.ok t =>
      if st.satisfyEnergy = false ∨ st.satisfyBreathiness = false ∨
          st.satisfyVoicing = false ∨ st.satisfyTension = false then
        Except.error (missingMsg st)
      else Except.ok (setInput st.inputs "f0" t)

/-- A concrete configuration declaring gender, velocity and, of the four
required parameters, energy and voicing only (a proper subset). -/
def acousticCfgW : List ParamTag :=
  [ParamTag.Gender, ParamTag.Velocity, ParamTag.Energy, ParamTag.Voicing]

/-- A concrete acoustic parameter list: gender and velocity present with
empty values, a pitch curve, and none of the four required parameters. -/
def acousticPsW : List InputParameter :=
  [⟨ParamTag.Gender, [], 1⟩, ⟨ParamTag.Velocity, [], 1⟩,
    ⟨ParamTag.Pitch, [10], 1⟩]

/-- The loop state reached by `acousticPsW` under `acousticCfgW`. -/
def acousticStW : AcousticLoopState :=
  ⟨[("gender", TensorVal.filled [1, 1] 0),
    ("velocity", TensorVal.filled [1, 1] 1)],
    true, true, false, true, false, true, true,
    none, some ⟨ParamTag.Pitch, [10], 1⟩, none⟩

/-! # Theorems -/

/--
Claim C5: with useVariableDepth false the acoustic stage computes the int64
depth as round(depth * 1000), clipped to at most maxDepth, then rounded down
to the largest multiple of the acceleration value; depth 0.417 with
maxDepth 1000 and acceleration 25 yields 400.  Confirmed: for a positive
acceleration and a non-negative clipped value, intDepth is the greatest
multiple of the acceleration that is at most the clipped value, and the
concrete scenario evaluates to 400.
-/
theorem intDepth_spec (depth : ℚ) (maxDepth acceleration : ℤ)
    (ha : 0 < acceleration)
    (hc : 0 ≤ min (llround (depth * 1000)) maxDepth) :
    acceleration ∣ intDepth depth maxDepth acceleration ∧
    intDepth depth maxDepth acceleration ≤ min (llround (depth * 1000)) maxDepth ∧
    (∀ m : ℤ, acceleration ∣ m → m ≤ min (llround (depth * 1000)) maxDepth →
      m ≤ intDepth depth maxDepth acceleration) ∧
    intDepth (417 / 1000) 1000 25 = 400 := by
  have hane : acceleration ≠ 0 := ne_of_gt ha
  have htd : cppDiv (min (llround (depth * 1000)) maxDepth) acceleration =
      min (llround (depth * 1000)) maxDepth / acceleration := by
    unfold cppDiv
    exact Int.tdiv_eq_ediv hc (le_of_lt ha)
  set c := min (llround (depth * 1000)) maxDepth with hcdef
  have hunfold : intDepth depth maxDepth acceleration =
      c / acceleration * acceleration := by
    show cppDiv c acceleration * acceleration = _
    rw [htd]
  refine ⟨?_, ?_, ?_, ?_⟩
  · rw [hunfold]
    exact dvd_mul_left acceleration (c / acceleration)
  · rw [hunfold]
    exact Int.ediv_mul_le c hane
  · intro m hm hmle
    rw [hunfold]
    obtain ⟨k, hk⟩ := hm
    have hk' : m = k * acceleration := by rw [hk]; ring
    have : k ≤ c / acceleration := by
      rw [Int.le_ediv_iff_mul_le ha]
      rw [← hk']
      exact hmle
    calc m = k * acceleration := hk'
    _ ≤ c / acceleration * acceleration :=
      mul_le_mul_of_nonneg_right this (le_of_lt ha)
  · have h417 : llround ((417 / 1000 : ℚ) * 1000) = 417 := by
      norm_num [llround]
    show cppDiv (min (llround ((417 / 1000 : ℚ) * 1000)) 1000) 25 * 25 = 400
    rw [h417]
    decide

/-- Witness for intDepth_spec at the spec's concrete scenario. -/
theorem intDepth_spec_witness :
    (0 : ℤ) < 25 ∧ (0 : ℤ) ≤ min (llround ((417 / 1000 : ℚ) * 1000)) 1000 ∧
    intDepth (417 / 1000) 1000 25 = 400 := by
  have hc : (0 : ℤ) ≤ min (llround ((417 / 1000 : ℚ) * 1000)) 1000 := by
    norm_num [llround]
  exact ⟨by decide, hc, (intDepth_spec (417 / 1000) 1000 25 (by decide) hc).2.2.2⟩

/--
Claim C10: lookup operations with a null key never fault: find(nullptr)
returns the end iterator (modelled as none), contains(nullptr) returns
false, and operator[](nullptr) returns an empty phoneme list.  Confirmed
for every dictionary: all three functions guard the null key explicitly.
-/
theorem phonemeDict_null_key_safe (d : PhonemeDictModel) :
    PhonemeDict.find d none = none ∧
    PhonemeDict.contains d none = false ∧
    PhonemeDict.getList d none = [] :=
  ⟨rfl, rfl, rfl⟩


/-- Membership in a conditional singleton list. -/
theorem mem_ite_singleton {P : Prop} [Decidable P] (x n : String) :
    (x ∈ if P then [n] else ([] : List String)) ↔ P ∧ x = n := by
  split_ifs with h <;> simp [h]

/-- The unmatched-field list is empty exactly when all nine fields agree. -/
theorem unmatchedFields_eq_nil_iff (a : AcousticConfiguration)
    (v : VocoderConfiguration) :
    unmatchedFields a v = [] ↔
      (a.sampleRate = v.sampleRate ∧ a.hopSize = v.hopSize ∧
       a.winSize = v.winSize ∧ a.fftSize = v.fftSize ∧
       a.melChannels = v.melChannels ∧ a.melMinFreq = v.melMinFreq ∧
       a.melMaxFreq = v.melMaxFreq ∧ a.melBase = v.melBase ∧
       a.melScale = v.melScale) := by
  simp [unmatchedFields, List.append_eq_nil, ite_eq_right_iff]

/--
Claim C1: before running any stage the pipeline driver compares the
acoustic and vocoder configurations on the nine fields sampleRate, hopSize,
winSize, fftSize, melChannels, melMinFreq, melMaxFreq, melBase, melScale; it
fails iff at least one differs, with a message listing every mismatched
field; acoustic hopSize 512 versus vocoder hopSize 256 with all other
fields equal fails with "acoustic and vocoder config mismatch: hopSize"
before any model runs (the result does not depend on the stage functions).
-/
theorem compat_check_spec (a : AcousticConfiguration) (v : VocoderConfiguration) :
    (checkAcousticVocoderCompat a v = .ok () ↔
      (a.sampleRate = v.sampleRate ∧ a.hopSize = v.hopSize ∧
       a.winSize = v.winSize ∧ a.fftSize = v.fftSize ∧
       a.melChannels = v.melChannels ∧ a.melMinFreq = v.melMinFreq ∧
       a.melMaxFreq = v.melMaxFreq ∧ a.melBase = v.melBase ∧
       a.melScale = v.melScale)) ∧
    (∀ name, name ∈ unmatchedFields a v ↔
      ((a.sampleRate ≠ v.sampleRate ∧ name = "sampleRate") ∨
       (a.hopSize ≠ v.hopSize ∧ name = "hopSize") ∨
       (a.winSize ≠ v.winSize ∧ name = "winSize") ∨
       (a.fftSize ≠ v.fftSize ∧ name = "fftSize") ∨
       (a.melChannels ≠ v.melChannels ∧ name = "melChannels") ∨
       (a.melMinFreq ≠ v.melMinFreq ∧ name = "melMinFreq") ∨
       (a.melMaxFreq ≠ v.melMaxFreq ∧ name = "melMaxFreq") ∨
       (a.melBase ≠ v.melBase ∧ name = "melBase") ∨
       (a.melScale ≠ v.melScale ∧ name = "melScale"))) ∧
    (unmatchedFields a v ≠ [] →
      ∀ stages, runPipeline a v stages =
        .error (mismatchMessage (unmatchedFields a v))) ∧
    (∀ stages, runPipeline acousticCfgHop512 vocoderCfgHop256 stages =
      .error "acoustic and vocoder config mismatch: hopSize") := by
  refine ⟨?_, ?_, ?_, ?_⟩
  · have hiff : checkAcousticVocoderCompat a v = .ok () ↔
        unmatchedFields a v = [] := by
      unfold checkAcousticVocoderCompat
      split_ifs with h
      · simp [h]
      · simp [h]
    exact hiff.trans (unmatchedFields_eq_nil_iff a v)
  · intro name
    simp only [unmatchedFields, List.mem_append, mem_ite_singleton, or_assoc]
  · intro h stages
    simp only [runPipeline, checkAcousticVocoderCompat, if_neg h]
    rfl
  · intro stages
    have h : unmatchedFields acousticCfgHop512 vocoderCfgHop256 = ["hopSize"] := by
      norm_num [unmatchedFields, acousticCfgHop512, vocoderCfgHop256]
    simp only [runPipeline, checkAcousticVocoderCompat, h]
    rfl

/-- Witness for compat_check_spec at the hopSize-mismatch scenario. -/
theorem compat_check_spec_witness :
    unmatchedFields acousticCfgHop512 vocoderCfgHop256 ≠ [] ∧
    runPipeline acousticCfgHop512 vocoderCfgHop256 (fun _ => .ok []) =
      .error "acoustic and vocoder config mismatch: hopSize" := by
  have hne : unmatchedFields acousticCfgHop512 vocoderCfgHop256 ≠ [] := by
    norm_num [unmatchedFields, acousticCfgHop512, vocoderCfgHop256]
  exact ⟨hne,
    (compat_check_spec acousticCfgHop512 vocoderCfgHop256).2.2.2 (fun _ => .ok [])⟩

/--
Claim C7 counterexample: a fully successful vocoder initialisation starting
from Uninitialised reports success but leaves the state Uninitialised, not
Idle, because VocoderInference's success path performs no setState call.
-/
theorem vocoder_init_no_idle_counterexample :
    (vocoderInitStep allOkEnv .Uninitialised).1 = true ∧
    (vocoderInitStep allOkEnv .Uninitialised).2 = .Uninitialised ∧
    (vocoderInitStep allOkEnv .Uninitialised).2 ≠ .Idle := by
  decide

/--
Claim C7 (amended): a successful initialisation moves duration, pitch,
variance and acoustic stages to Idle, while the vocoder stage's successful
initialisation leaves its state unchanged; an unsuccessful initialisation
whose task-init args were valid leaves the stage Failed, whereas an
argument-validation failure (null or wrongly named args) returns before any
state change.
-/
theorem stage_init_transitions (e : InitEnv) (s : ITaskState) :
    ((durationInitStep e s).1 = true → (durationInitStep e s).2 = .Idle) ∧
    ((pitchInitStep e s).1 = true → (pitchInitStep e s).2 = .Idle) ∧
    ((varianceInitStep e s).1 = true → (varianceInitStep e s).2 = .Idle) ∧
    ((acousticInitStep e s).1 = true → (acousticInitStep e s).2 = .Idle) ∧
    ((vocoderInitStep e s).1 = true → (vocoderInitStep e s).2 = s) ∧
    (e.argsOk = true → (durationInitStep e s).1 = false →
      (durationInitStep e s).2 = .Failed) ∧
    (e.argsOk = true → (pitchInitStep e s).1 = false →
      (pitchInitStep e s).2 = .Failed) ∧
    (e.argsOk = true → (varianceInitStep e s).1 = false →
      (varianceInitStep e s).2 = .Failed) ∧
    (e.argsOk = true → (acousticInitStep e s).1 = false →
      (acousticInitStep e s).2 = .Failed) ∧
    (e.argsOk = true → (vocoderInitStep e s).1 = false →
      (vocoderInitStep e s).2 = .Failed) ∧
    (e.argsOk = false →
      (durationInitStep e s).2 = s ∧ (pitchInitStep e s).2 = s ∧
      (varianceInitStep e s).2 = s ∧ (acousticInitStep e s).2 = s ∧
      (vocoderInitStep e s).2 = s) := by
  obtain ⟨a, d, c, o1, o2⟩ := e
  cases a <;> cases d <;> cases c <;> cases o1 <;> cases o2 <;>
    simp [durationInitStep, pitchInitStep, varianceInitStep,
      acousticInitStep, vocoderInitStep]

/-- Witness for stage_init_transitions: a fully successful environment sends
the duration stage to Idle and leaves the vocoder stage unchanged; a failed
driver lookup with valid args sends the duration stage to Failed. -/
theorem stage_init_transitions_witness :
    (durationInitStep allOkEnv .Uninitialised).2 = .Idle ∧
    (vocoderInitStep allOkEnv .Uninitialised).2 = .Uninitialised ∧
    (durationInitStep ⟨true, false, true, true, true⟩ .Uninitialised).2 = .Failed := by
  refine ⟨?_, ?_, ?_⟩
  · exact (stage_init_transitions allOkEnv .Uninitialised).1 (by decide)
  · exact (stage_init_transitions allOkEnv .Uninitialised).2.2.2.2.1 (by decide)
  · exact (stage_init_transitions ⟨true, false, true, true, true⟩
      .Uninitialised).2.2.2.2.2.1 (by decide) (by decide)

/-- Clamping to [0, targetLength] does not change the comparison with an
in-range frame index (lower bound side). -/
theorem clampZ_le_nat_iff (R : ℤ) (T i : ℕ) (hi : (i : ℤ) < T) :
    clampZ R 0 T ≤ i ↔ R ≤ i := by
  unfold clampZ
  omega

/-- Clamping to [0, targetLength] does not change the comparison with an
in-range frame index (upper bound side). -/
theorem nat_lt_clampZ_iff (R : ℤ) (T i : ℕ) (hi : (i : ℤ) < T) :
    (i : ℤ) < clampZ R 0 T ↔ (i : ℤ) < R := by
  unfold clampZ
  omega

/-- The pitch retake mask always has targetLength bits. -/
theorem pitchRetakeMask_length (Δ : ℚ) (T : ℕ) (r : Option (ℚ × ℚ)) :
    (pitchRetakeMask Δ T r).length = T := by
  unfold pitchRetakeMask
  cases r with
  | none => exact List.length_replicate T true
  | some p =>
    obtain ⟨s, e⟩ := p
    dsimp only
    split_ifs <;>
      first
      | exact List.length_replicate T _
      | rw [List.length_map, List.length_range]

/-- Each slab of the combined variance retake tensor has targetLength bits. -/
theorem varianceRetakeSlab_length (Δ : ℚ) (T : ℕ) (r : Option (ℚ × ℚ)) :
    (varianceRetakeSlab Δ T r).length = T := by
  unfold varianceRetakeSlab
  cases r with
  | none => exact List.length_replicate T true
  | some p =>
    obtain ⟨s, e⟩ := p
    dsimp only
    split_ifs <;>
      first
      | exact List.length_replicate T _
      | rw [List.length_map, List.length_range]

/-- Unfolding of the pitch retake mask at a present window. -/
theorem pitchRetakeMask_some (Δ : ℚ) (T : ℕ) (s e : ℚ) :
    pitchRetakeMask Δ T (some (s, e)) =
      (if clampZ (llround (s / Δ)) 0 T = clampZ (llround (e / Δ)) 0 T then
        List.replicate T false
      else if clampZ (llround (s / Δ)) 0 T < clampZ (llround (e / Δ)) 0 T then
        (List.range T).map (fun (i : ℕ) =>
          decide (clampZ (llround (s / Δ)) 0 T ≤ (i : ℤ) ∧
            (i : ℤ) < clampZ (llround (e / Δ)) 0 T))
      else List.replicate T true) := rfl

/-- Unfolding of the claimed mask at a present window. -/
theorem claimedRetakeMask_some (Δ : ℚ) (T : ℕ) (s e : ℚ) :
    claimedRetakeMask Δ T (some (s, e)) =
      (List.range T).map (fun (i : ℕ) =>
        decide (llround (s / Δ) ≤ (i : ℤ) ∧ (i : ℤ) < llround (e / Δ))) := rfl

/-- For non-negative window endpoints the variance slab coincides with the
pitch mask construction. -/
theorem varianceRetakeSlab_nonneg (Δ : ℚ) (T : ℕ) (s e : ℚ)
    (hs : 0 ≤ s) (he : 0 ≤ e) :
    varianceRetakeSlab Δ T (some (s, e)) = pitchRetakeMask Δ T (some (s, e)) := by
  dsimp only [varianceRetakeSlab, pitchRetakeMask]
  simp only [hs, he, if_true]

/-- The combined variance retake tensor decomposes slab by slab. -/
theorem varianceCombinedRetake_cons (Δ : ℚ) (T : ℕ) (r : Option (ℚ × ℚ))
    (rs : List (Option (ℚ × ℚ))) :
    varianceCombinedRetake Δ T (r :: rs) =
      varianceRetakeSlab Δ T r ++ varianceCombinedRetake Δ T rs := by
  unfold varianceCombinedRetake
  rw [List.map_cons, List.flatten_cons]

/--
Claim C2 (amended): for the pitch stage's retake mask and each prediction
slab of the variance stage's combined retake tensor over targetLength
frames: with no retake window every bit is true; with a window whose
clamped rounded start frame is at most its clamped rounded end frame, the
bits outside [round(start/frameWidth), round(end/frameWidth)) are false and
the bits inside are true, so a zero-length window blanks the whole mask;
but a window whose clamped rounded start frame exceeds its clamped rounded
end frame leaves the mask all true; the variance slab agrees with the pitch
construction for windows with non-negative endpoints; and the j-th slab of
the combined [1, targetLength, nPredictions] tensor is its contiguous
region starting at offset j * targetLength.
-/
theorem retake_mask_spec (Δ : ℚ) (T : ℕ) (s e : ℚ) :
    pitchRetakeMask Δ T none = List.replicate T true ∧
    varianceRetakeSlab Δ T none = List.replicate T true ∧
    (clampZ (llround (s / Δ)) 0 T ≤ clampZ (llround (e / Δ)) 0 T →
      pitchRetakeMask Δ T (some (s, e)) = claimedRetakeMask Δ T (some (s, e))) ∧
    (clampZ (llround (e / Δ)) 0 T < clampZ (llround (s / Δ)) 0 T →
      pitchRetakeMask Δ T (some (s, e)) = List.replicate T true) ∧
    (0 ≤ s → 0 ≤ e →
      varianceRetakeSlab Δ T (some (s, e)) = pitchRetakeMask Δ T (some (s, e))) ∧
    (∀ (retakes : List (Option (ℚ × ℚ))) (j : ℕ), j < retakes.length →
      ((varianceCombinedRetake Δ T retakes).drop (j * T)).take T =
        varianceRetakeSlab Δ T (retakes.getD j none)) := by
  refine ⟨rfl, rfl, ?_, ?_, varianceRetakeSlab_nonneg Δ T s e, ?_⟩
  · intro hle
    rw [pitchRetakeMask_some, claimedRetakeMask_some]
    split_ifs with h1 h2
    · -- zero-length clamped window: the claimed mask is also all false
      apply List.ext_getElem
      · rw [List.length_replicate, List.length_map, List.length_range]
      · intro n hn1 hn2
        rw [List.length_replicate] at hn1
        have hnT : (n : ℤ) < T := by exact_mod_cast hn1
        rw [List.getElem_replicate, List.getElem_map, List.getElem_range]
        symm
        rw [decide_eq_false_iff_not]
        rintro ⟨hsn, hne⟩
        rw [← clampZ_le_nat_iff _ T n hnT] at hsn
        rw [← nat_lt_clampZ_iff _ T n hnT] at hne
        omega
    · -- proper clamped window: both maps agree bit by bit
      apply List.map_congr_left
      intro a ha
      have haT : (a : ℤ) < T := by exact_mod_cast List.mem_range.mp ha
      rw [decide_eq_decide]
      rw [clampZ_le_nat_iff _ T a haT, nat_lt_clampZ_iff _ T a haT]
    · omega
  · intro hgt
    rw [pitchRetakeMask_some]
    rw [if_neg (by omega), if_neg (by omega)]
  · intro retakes
    induction retakes with
    | nil => intro j hj; simp at hj
    | cons r rs ih =>
      intro j hj
      cases j with
      | zero =>
        rw [varianceCombinedRetake_cons, Nat.zero_mul, List.drop_zero]
        nth_rewrite 1 [← varianceRetakeSlab_length Δ T r]
        rw [List.take_left]
        rfl
      | succ j' =>
        rw [varianceCombinedRetake_cons]
        rw [show (j' + 1) * T = (varianceRetakeSlab Δ T r).length + j' * T by
          rw [varianceRetakeSlab_length]; ring]
        rw [List.drop_append]
        exact ih j' (by simpa using hj)

/--
Claim C2 counterexample: a reversed retake window (start 2s, end 1s) with
frame width 1 and three frames leaves the pitch mask all true, whereas the
claim's description (bits outside the empty rounded interval are false)
yields an all-false mask.
-/
theorem retake_mask_reversed_counterexample :
    pitchRetakeMask 1 3 (some (2, 1)) = [true, true, true] ∧
    claimedRetakeMask 1 3 (some (2, 1)) = [false, false, false] ∧
    pitchRetakeMask 1 3 (some (2, 1)) ≠ claimedRetakeMask 1 3 (some (2, 1)) := by
  have h2 : llround ((2 : ℚ) / 1) = 2 := by norm_num [llround]
  have h1 : llround ((1 : ℚ) / 1) = 1 := by norm_num [llround]
  have hm : pitchRetakeMask 1 3 (some (2, 1)) = [true, true, true] := by
    rw [pitchRetakeMask_some, h2, h1]
    decide
  have hc : claimedRetakeMask 1 3 (some (2, 1)) = [false, false, false] := by
    rw [claimedRetakeMask_some, h2, h1]
    decide
  refine ⟨hm, hc, ?_⟩
  rw [hm, hc]
  decide

/-- Witness for retake_mask_spec at a forward window (0s, 1s), frame width
1, two frames. -/
theorem retake_mask_spec_witness :
    clampZ (llround ((0 : ℚ) / 1)) 0 2 ≤ clampZ (llround ((1 : ℚ) / 1)) 0 2 ∧
    pitchRetakeMask 1 2 (some (0, 1)) = claimedRetakeMask 1 2 (some (0, 1)) ∧
    varianceRetakeSlab 1 2 (some (0, 1)) = pitchRetakeMask 1 2 (some (0, 1)) ∧
    ((varianceCombinedRetake 1 2 [some (0, 1)]).drop 0).take 2 =
      varianceRetakeSlab 1 2 (some (0, 1)) := by
  have h0 : llround ((0 : ℚ) / 1) = 0 := by norm_num [llround]
  have h1 : llround ((1 : ℚ) / 1) = 1 := by norm_num [llround]
  have hle : clampZ (llround ((0 : ℚ) / 1)) 0 2 ≤ clampZ (llround ((1 : ℚ) / 1)) 0 2 := by
    rw [h0, h1]; decide
  refine ⟨hle, (retake_mask_spec 1 2 0 1).2.2.1 hle,
    (retake_mask_spec 1 2 0 1).2.2.2.2.1 (by norm_num) (by norm_num), ?_⟩
  have := (retake_mask_spec 1 2 0 1).2.2.2.2.2 [some (0, 1)] 0 (by simp)
  simpa using this

/-- Dropping the length of the left part of an append yields the right part. -/
theorem drop_append_of_length {α : Type} (A rest : List α) (b : ℕ)
    (h : A.length = b) : (A ++ rest).drop b = rest := by
  rw [← h, List.drop_left]

/-- Taking the length of the left part of an append yields the left part. -/
theorem take_append_of_length {α : Type} (A rest : List α) (b : ℕ)
    (h : A.length = b) : (A ++ rest).take b = A := by
  rw [← h, List.take_left]

/-- Two vectors equal up to position ee have equal slices inside [0, ee). -/
theorem slice_eq_of_take_eq {α : Type} {x y : List α} {b n ee : ℕ}
    (h : b + n ≤ ee) (ht : x.take ee = y.take ee) :
    (x.drop b).take n = (y.drop b).take n := by
  have key : ∀ z : List α, ((z.take ee).drop b).take n = (z.drop b).take n := by
    intro z
    rw [List.drop_take, List.take_take]
    congr 1
    omega
  rw [← key x, ← key y, ht]

/-- Two vectors equal from position ee on have equal slices past ee. -/
theorem slice_eq_of_drop_eq {α : Type} {x y : List α} {b n ee : ℕ}
    (h : ee ≤ b) (hd : x.drop ee = y.drop ee) :
    (x.drop b).take n = (y.drop b).take n := by
  have key : ∀ z : List α, (z.drop ee).drop (b - ee) = z.drop b := by
    intro z
    rw [List.drop_drop]
    congr 1
    omega
  rw [← key x, ← key y, hd]

/-- Scaling a slice preserves the vector length. -/
theorem scaleSlice_length (v : List ℚ) (b n : ℕ) (f : ℚ)
    (hbn : b + n ≤ v.length) : (scaleSlice v b n f).length = v.length := by
  unfold scaleSlice
  simp only [List.length_append, List.length_take, List.length_map,
    List.length_drop]
  omega

/-- Scaling a slice does not touch the prefix before it. -/
theorem scaleSlice_take (v : List ℚ) (b n : ℕ) (f : ℚ)
    (hbn : b + n ≤ v.length) : (scaleSlice v b n f).take b = v.take b := by
  unfold scaleSlice
  rw [List.append_assoc]
  rw [List.take_append_of_le_length (by simp; omega)]
  rw [List.take_take]
  congr 1
  omega

/-- Scaling a slice does not touch the suffix after it. -/
theorem scaleSlice_drop (v : List ℚ) (b n : ℕ) (f : ℚ)
    (hbn : b + n ≤ v.length) :
    (scaleSlice v b n f).drop (b + n) = v.drop (b + n) := by
  unfold scaleSlice
  apply drop_append_of_length
  simp only [List.length_append, List.length_take, List.length_map,
    List.length_drop]
  omega

/-- The scaled slice itself. -/
theorem scaleSlice_slice (v : List ℚ) (b n : ℕ) (f : ℚ)
    (hbn : b + n ≤ v.length) :
    ((scaleSlice v b n f).drop b).take n =
      ((v.drop b).take n).map (fun x => x * f) := by
  unfold scaleSlice
  rw [List.append_assoc]
  rw [drop_append_of_length _ _ b (by simp; omega)]
  rw [List.take_append_of_le_length (by simp; omega)]
  apply List.take_of_length_le
  simp only [List.length_map, List.length_take, List.length_drop]
  omega

/-- Sum of an elementwise right multiplication. -/
theorem listSum_map_mul (l : List ℚ) (f : ℚ) :
    (l.map (fun x => x * f)).sum = l.sum * f := by
  induction l with
  | nil => simp
  | cons x xs ih => simp [ih, add_mul]

/-- The phone count of a word list decomposes at the head. -/
theorem getPhoneCount_cons (w : InputWordInfo) (ws : List InputWordInfo) :
    getPhoneCount (w :: ws) = w.phones.length + getPhoneCount ws := by
  simp [getPhoneCount]

/-- The phone offset of word j+1 in w :: ws. -/
theorem phoneOffset_cons_succ (w : InputWordInfo) (ws : List InputWordInfo)
    (j : ℕ) :
    phoneOffset (w :: ws) (j + 1) = w.phones.length + phoneOffset ws j := by
  simp [phoneOffset]

/-- The phone offset of word 0 is zero. -/
theorem phoneOffset_cons_zero (w : InputWordInfo) (ws : List InputWordInfo) :
    phoneOffset (w :: ws) 0 = 0 := rfl

/-- The scaling loop preserves the vector length whenever it succeeds. -/
theorem rescaleGo_ok_length (words : List InputWordInfo) :
    ∀ (v v' : List ℚ) (b : ℕ),
    rescaleGo words v b = .ok v' → v'.length = v.length := by
  induction words with
  | nil =>
    intro v v' b hok
    simp only [rescaleGo] at hok
    cases hok
    rfl
  | cons w ws ih =>
    intro v v' b hok
    simp only [rescaleGo] at hok
    by_cases h0 : w.phones.length = 0
    · rw [if_pos h0] at hok
      cases hok
    · rw [if_neg h0] at hok
      by_cases hbr : b ≥ v.length ∨ b + w.phones.length > v.length
      · rw [if_pos hbr] at hok
        cases hok
        rfl
      · rw [if_neg hbr] at hok
        by_cases hz : ((v.drop b).take w.phones.length).sum = 0
        · rw [if_pos hz] at hok
          cases hok
        · rw [if_neg hz] at hok
          have hbn : b + w.phones.length ≤ v.length := by omega
          have := ih _ v' _ hok
          rw [this]
          exact scaleSlice_length v b w.phones.length _ hbn

/--
Core invariant of the duration rescaling loop: on success, the cursor
prefix is untouched and every word of the list has a non-zero raw predicted
sum whose scaled counterpart equals the word's score-level duration.
-/
theorem rescaleGo_ok_spec (words : List InputWordInfo) :
    ∀ (v v' : List ℚ) (b : ℕ),
    rescaleGo words v b = .ok v' →
    b + getPhoneCount words ≤ v.length →
    v'.take b = v.take b ∧
    ∀ (j : ℕ) (hj : j < words.length),
      sliceSum v (b + phoneOffset words j)
        ((words.get ⟨j, hj⟩).phones.length) ≠ 0 ∧
      sliceSum v' (b + phoneOffset words j)
        ((words.get ⟨j, hj⟩).phones.length) =
        getWordDuration (words.get ⟨j, hj⟩) := by
  induction words with
  | nil =>
    intro v v' b hok _
    simp only [rescaleGo] at hok
    cases hok
    refine ⟨rfl, ?_⟩
    intro j hj
    simp at hj
  | cons w ws ih =>
    intro v v' b hok hlen
    rw [getPhoneCount_cons] at hlen
    simp only [rescaleGo] at hok
    by_cases h0 : w.phones.length = 0
    · rw [if_pos h0] at hok
      cases hok
    · rw [if_neg h0] at hok
      have hnpos : 0 < w.phones.length := Nat.pos_of_ne_zero h0
      have hbn : b + w.phones.length ≤ v.length := by omega
      have hbr : ¬(b ≥ v.length ∨ b + w.phones.length > v.length) := by omega
      rw [if_neg hbr] at hok
      by_cases hz : ((v.drop b).take w.phones.length).sum = 0
      · rw [if_pos hz] at hok
        cases hok
      · rw [if_neg hz] at hok
        have hulen :
            (scaleSlice v b w.phones.length
              (getWordDuration w / ((v.drop b).take w.phones.length).sum)).length
              = v.length :=
          scaleSlice_length v b w.phones.length _ hbn
        have hpre : (b + w.phones.length) + getPhoneCount ws ≤
            (scaleSlice v b w.phones.length
              (getWordDuration w / ((v.drop b).take w.phones.length).sum)).length := by
          omega
        obtain ⟨hT, hJ⟩ := ih _ v' _ hok hpre
        have hTb : v'.take b = v.take b := by
          have h1 : v'.take b = (v'.take (b + w.phones.length)).take b := by
            rw [List.take_take]
            congr 1
            omega
          rw [h1, hT]
          have h2 : ((scaleSlice v b w.phones.length
              (getWordDuration w / ((v.drop b).take w.phones.length).sum)).take
                (b + w.phones.length)).take b =
              (scaleSlice v b w.phones.length
                (getWordDuration w / ((v.drop b).take w.phones.length).sum)).take b := by
            rw [List.take_take]
            congr 1
            omega
          rw [h2]
          exact scaleSlice_take v b w.phones.length _ hbn
        refine ⟨hTb, ?_⟩
        intro j hj
        cases j with
        | zero =>
          constructor
          · show sliceSum v (b + phoneOffset (w :: ws) 0) w.phones.length ≠ 0
            rw [phoneOffset_cons_zero, Nat.add_zero]
            exact hz
          · show sliceSum v' (b + phoneOffset (w :: ws) 0) w.phones.length =
              getWordDuration w
            rw [phoneOffset_cons_zero, Nat.add_zero]
            have hslice : (v'.drop b).take w.phones.length =
                ((scaleSlice v b w.phones.length
                  (getWordDuration w / ((v.drop b).take w.phones.length).sum)).drop
                    b).take w.phones.length :=
              slice_eq_of_take_eq (le_refl _) hT
            unfold sliceSum
            rw [hslice, scaleSlice_slice v b w.phones.length _ hbn, listSum_map_mul]
            field_simp
        | succ j' =>
          have hj' : j' < ws.length := by
            simpa using hj
          obtain ⟨hz', hv'⟩ := hJ j' hj'
          have hpos : b + phoneOffset (w :: ws) (j' + 1) =
              (b + w.phones.length) + phoneOffset ws j' := by
            rw [phoneOffset_cons_succ]
            omega
          have hget : (w :: ws).get ⟨j' + 1, hj⟩ = ws.get ⟨j', hj'⟩ := rfl
          rw [hget, hpos]
          refine ⟨?_, hv'⟩
          intro hzero
          apply hz'
          have hdropeq : (scaleSlice v b w.phones.length
              (getWordDuration w / ((v.drop b).take w.phones.length).sum)).drop
                (b + w.phones.length) = v.drop (b + w.phones.length) :=
            scaleSlice_drop v b w.phones.length _ hbn
          have hsl : ((scaleSlice v b w.phones.length
              (getWordDuration w / ((v.drop b).take w.phones.length).sum)).drop
                ((b + w.phones.length) + phoneOffset ws j')).take
                  ((ws.get ⟨j', hj'⟩).phones.length) =
              (v.drop ((b + w.phones.length) + phoneOffset ws j')).take
                ((ws.get ⟨j', hj'⟩).phones.length) :=
            slice_eq_of_drop_eq (by omega) hdropeq
          unfold sliceSum at hzero ⊢
          rw [hsl]
          exact hzero

/--
Claim C4 (amended): on success of the duration rescaling step every word's
raw predicted sum was non-zero (the zero/NaN/infinity check is applied to
the raw predicted word sum, before scaling), each word's predictions were
multiplied by wordDur divided by that raw sum, and consequently each word's
scaled predicted sum equals the word's score-level note-duration sum
exactly (so in particular within one frame); the stage also fails unless
the predicted count matches the total phone count.
-/
theorem duration_rescale_spec (words : List InputWordInfo) (durs v : List ℚ)
    (hok : rescaleDurations words durs = .ok v) :
    v.length = durs.length ∧
    durs.length = getPhoneCount words ∧
    ∀ (j : ℕ) (hj : j < words.length),
      sliceSum durs (phoneOffset words j)
        ((words.get ⟨j, hj⟩).phones.length) ≠ 0 ∧
      sliceSum v (phoneOffset words j)
        ((words.get ⟨j, hj⟩).phones.length) =
        getWordDuration (words.get ⟨j, hj⟩) := by
  unfold rescaleDurations at hok
  cases hgo : rescaleGo words durs 0 with
  | error msg =>
    rw [hgo] at hok
    cases hok
  | ok v0 =>
    rw [hgo] at hok
    dsimp only at hok
    by_cases hcnt : v0.length ≠ getPhoneCount words
    · rw [if_pos hcnt] at hok
      cases hok
    · rw [if_neg hcnt] at hok
      cases hok
      push_neg at hcnt
      have hlen : v.length = durs.length :=
        rescaleGo_ok_length words durs v 0 hgo
      have hpre : 0 + getPhoneCount words ≤ durs.length := by omega
      obtain ⟨-, hJ⟩ := rescaleGo_ok_spec words durs v 0 hgo hpre
      refine ⟨hlen, by omega, ?_⟩
      intro j hj
      have h := hJ j hj
      simpa using h

/--
Claim C4 counterexample: a word whose score-level duration is zero produces
a scaled predicted word sum of zero without any failure (the code checks
the raw predicted sum, which is 1 here), contradicting the claim that the
stage fails when a scaled predicted word-duration sum is zero.
-/
theorem duration_rescale_zero_counterexample :
    rescaleDurations [⟨[⟨0⟩], [⟨60, 0, 0, false⟩]⟩] [1] = .ok [0] ∧
    getWordDuration ⟨[⟨0⟩], [⟨60, 0, 0, false⟩]⟩ = 0 := by
  constructor
  · simp [rescaleDurations, rescaleGo, scaleSlice, getWordDuration,
      getPhoneCount]
  · simp [getWordDuration]

/-- Witness for duration_rescale_spec at a one-word score. -/
theorem duration_rescale_spec_witness :
    rescaleDurations [⟨[⟨0⟩], [⟨60, 0, 2, false⟩]⟩] [4] = .ok [2] ∧
    sliceSum [2] 0 1 = getWordDuration ⟨[⟨0⟩], [⟨60, 0, 2, false⟩]⟩ := by
  have hok : rescaleDurations [⟨[⟨0⟩], [⟨60, 0, 2, false⟩]⟩] [4] = .ok [2] := by
    simp [rescaleDurations, rescaleGo, scaleSlice, getWordDuration,
      getPhoneCount]
    norm_num
  refine ⟨hok, ?_⟩
  have h := (duration_rescale_spec _ _ _ hok).2.2 0 (by simp)
  simpa [phoneOffset] using h.2

/-- Reading a mapped range inside the range. -/
theorem rangeMap_getD_lt {α : Type} (n : ℕ) (f : ℕ → α) (i : ℕ) (d : α)
    (h : i < n) : ((List.range n).map f).getD i d = f i := by
  rw [List.getD_eq_getElem?_getD]
  simp [List.getElem?_map, List.getElem?_range, h]

/-- Reading a mapped range past the range yields the default. -/
theorem rangeMap_getD_ge {α : Type} (n : ℕ) (f : ℕ → α) (i : ℕ) (d : α)
    (h : n ≤ i) : ((List.range n).map f).getD i d = d := by
  rw [List.getD_eq_getElem?_getD, List.getElem?_eq_none]
  · rfl
  · simpa using h

/-- Reading an out-of-range position yields the default. -/
theorem getD_of_length_le {α : Type} (l : List α) (i : ℕ) (d : α)
    (h : l.length ≤ i) : l.getD i d = d := by
  rw [List.getD_eq_getElem?_getD, List.getElem?_eq_none h]
  rfl

/-- Reading an append inside the left part. -/
theorem getD_append_lt {α : Type} (l1 l2 : List α) (i : ℕ) (d : α)
    (h : i < l1.length) : (l1 ++ l2).getD i d = l1.getD i d := by
  rw [List.getD_eq_getElem?_getD, List.getD_eq_getElem?_getD,
    List.getElem?_append_left h]

/-- Reading an append inside the right part. -/
theorem getD_append_ge {α : Type} (l1 l2 : List α) (i : ℕ) (d : α)
    (h : l1.length ≤ i) : (l1 ++ l2).getD i d = l2.getD (i - l1.length) d := by
  rw [List.getD_eq_getElem?_getD, List.getD_eq_getElem?_getD,
    List.getElem?_append_right h]

/-- The index returned by the nearest-non-rest scan carries a false flag. -/
theorem nearestNonRestIdx_mem (flags : List Bool) (i : ℕ) :
    ∀ j, nearestNonRestIdx flags i = some j → flags.getD j true = false := by
  have aux : ∀ (l : List ℕ) (acc : Option ℕ),
      (∀ b, acc = some b → flags.getD b true = false) →
      ∀ j, (l.foldl (fun best j =>
        if flags.getD j true = false then
          match best with
          | none => some j
          | some b => if natDist j i < natDist b i then some j else best
        else best) acc) = some j → flags.getD j true = false := by
    intro l
    induction l with
    | nil =>
      intro acc hacc j h
      exact hacc j h
    | cons a l ih =>
      intro acc hacc j h
      rw [List.foldl_cons] at h
      refine ih _ ?_ j h
      intro b hb
      by_cases hf : flags.getD a true = false
      · rw [if_pos hf] at hb
        cases acc with
        | none =>
          cases hb
          exact hf
        | some c =>
          dsimp only at hb
          by_cases hd : natDist a i < natDist c i
          · rw [if_pos hd] at hb
            cases hb
            exact hf
          · rw [if_neg hd] at hb
            exact hacc b hb
      · rw [if_neg hf] at hb
        exact hacc b hb
  intro j h
  exact aux (List.range flags.length) none (by intro b hb; cases hb) j h

/-- The nearest-non-rest scan finds an index when a false flag exists. -/
theorem nearestNonRestIdx_ne_none (flags : List Bool) (i j0 : ℕ)
    (hj0 : j0 < flags.length) (hf : flags.getD j0 true = false) :
    nearestNonRestIdx flags i ≠ none := by
  have aux : ∀ (l : List ℕ) (acc : Option ℕ),
      (l.foldl (fun best j =>
        if flags.getD j true = false then
          match best with
          | none => some j
          | some b => if natDist j i < natDist b i then some j else best
        else best) acc) = none →
      acc = none ∧ ∀ j ∈ l, flags.getD j true = true := by
    intro l
    induction l with
    | nil =>
      intro acc h
      exact ⟨h, by intro j hj; simp at hj⟩
    | cons a l ih =>
      intro acc h
      rw [List.foldl_cons] at h
      obtain ⟨hstep, hrest⟩ := ih _ h
      by_cases hfa : flags.getD a true = false
      · rw [if_pos hfa] at hstep
        cases acc with
        | none => cases hstep
        | some c =>
          dsimp only at hstep
          by_cases hd : natDist a i < natDist c i
          · rw [if_pos hd] at hstep
            cases hstep
          · rw [if_neg hd] at hstep
            cases hstep
      · rw [if_neg hfa] at hstep
        refine ⟨hstep, ?_⟩
        intro j hj
        rcases List.mem_cons.mp hj with h1 | h2
        · subst h1
          revert hfa
          cases flags.getD j true <;> simp
        · exact hrest j h2
  intro hnone
  obtain ⟨-, hall⟩ := aux (List.range flags.length) none hnone
  have := hall j0 (List.mem_range.mpr hj0)
  rw [hf] at this
  cases this

/-- A flag read as false with default true is also false with default
false (the position is in range). -/
theorem getD_true_false (flags : List Bool) (j : ℕ)
    (h : flags.getD j true = false) : flags.getD j false = false := by
  by_cases hj : j < flags.length
  · rw [List.getD_eq_getElem _ _ hj] at h ⊢
    exact h
  · rw [getD_of_length_le _ _ _ (by omega)] at h
    cases h

/-- A successful fill keeps the length and the non-rest entries. -/
theorem fill_preserves {α : Type} [Inhabited α] (vals : List α)
    (flags : List Bool) (out : List α)
    (h : fillRestMidiWithNearest vals flags = some out) :
    out.length = vals.length ∧
    ∀ i, flags.getD i false = false → out.getD i default = vals.getD i default := by
  unfold fillRestMidiWithNearest at h
  split at h
  · cases h
  · cases h
    constructor
    · rw [List.length_map, List.length_range]
    · intro i hfi
      by_cases hi : i < vals.length
      · rw [rangeMap_getD_lt _ _ _ _ hi]
        unfold fillValue
        rw [if_neg (by rw [hfi]; exact Bool.false_ne_true)]
      · rw [rangeMap_getD_ge _ _ _ _ (by omega),
          getD_of_length_le _ _ _ (by omega)]

/-- Two inputs that agree on the non-rest positions fill identically. -/
theorem fill_congr {α : Type} [Inhabited α] (v1 v2 : List α) (flags : List Bool)
    (hlen : v1.length = v2.length) (hlenf : flags.length = v1.length)
    (hag : ∀ i, flags.getD i false = false →
      v1.getD i default = v2.getD i default) :
    fillRestMidiWithNearest v1 flags = fillRestMidiWithNearest v2 flags := by
  have hemp : v1.isEmpty = v2.isEmpty := by
    cases v1 with
    | nil =>
      cases v2 with
      | nil => rfl
      | cons y ys => simp at hlen
    | cons x xs =>
      cases v2 with
      | nil => simp at hlen
      | cons y ys => rfl
  unfold fillRestMidiWithNearest
  rw [← hemp, ← hlen]
  by_cases hcond : v1.isEmpty = false ∧ flags.all (fun b => b)
  · rw [if_pos hcond, if_pos hcond]
  · rw [if_neg hcond, if_neg hcond]
    congr 1
    apply List.map_congr_left
    intro i hi
    have hilt : i < v1.length := List.mem_range.mp hi
    unfold fillValue
    by_cases hfi : flags.getD i false = true
    · rw [if_pos hfi, if_pos hfi]
      have hne : v1.isEmpty = false := by
        cases v1 with
        | nil => simp at hilt
        | cons x xs => rfl
      have hnotall : ¬flags.all (fun b => b) = true := fun hall => hcond ⟨hne, hall⟩
      have hex : ∃ j0, j0 < flags.length ∧ flags.getD j0 true = false := by
        rw [List.all_eq_true] at hnotall
        push_neg at hnotall
        obtain ⟨x, hxmem, hxne⟩ := hnotall
        obtain ⟨n, hn, hxn⟩ := List.getElem_of_mem hxmem
        refine ⟨n, hn, ?_⟩
        rw [List.getD_eq_getElem _ _ hn, hxn]
        revert hxne
        cases x <;> simp
      obtain ⟨j0, hj0, hfj0⟩ := hex
      cases hnn : nearestNonRestIdx flags i with
      | none => exact absurd hnn (nearestNonRestIdx_ne_none flags i j0 hj0 hfj0)
      | some j =>
        have hj : flags.getD j true = false := nearestNonRestIdx_mem flags i j hnn
        exact hag j (getD_true_false flags j hj)
    · rw [if_neg hfi, if_neg hfi]
      exact hag i (by revert hfi; cases flags.getD i false <;> simp)

/-- The word loop computes the one-shot global fill of all pre-fill
entries: intermediate per-word fills do not change the final outcome. -/
theorem ppmGo_ok_fill (ws : List InputWordInfo) :
    ∀ (pre : List ℤ) (flags : List Bool) (cur v : List ℤ),
    flags.length = pre.length →
    fillRestMidiWithNearest pre flags = some cur →
    ppmGo ws cur flags = .ok v →
    fillRestMidiWithNearest
      (pre ++ (phonemeMidiPreFill ws).map (fun p => p.2))
      (flags ++ (phonemeMidiPreFill ws).map (fun p => p.1)) = some v := by
  induction ws with
  | nil =>
    intro pre flags cur v hlenf hfill hok
    simp only [ppmGo] at hok
    cases hok
    simp only [phonemeMidiPreFill, List.filter_nil, List.map_nil,
      List.flatten_nil, List.append_nil]
    exact hfill
  | cons w ws ih =>
    intro pre flags cur v hlenf hfill hok
    simp only [ppmGo] at hok
    by_cases hne : w.notes.isEmpty
    · rw [if_pos hne] at hok
      have hpre : phonemeMidiPreFill (w :: ws) = phonemeMidiPreFill ws := by
        simp [phonemeMidiPreFill, List.filter_cons, hne]
      rw [hpre]
      exact ih pre flags cur v hlenf hfill hok
    · rw [if_neg hne] at hok
      obtain ⟨hculen, hcur⟩ := fill_preserves pre flags cur hfill
      cases hfc : fillRestMidiWithNearest
          (cur ++ (wordPhoneEntries w).map (fun p => p.2))
          (flags ++ (wordPhoneEntries w).map (fun p => p.1)) with
      | none =>
        rw [hfc] at hok
        cases hok
      | some filled =>
        rw [hfc] at hok
        have hlens : (cur ++ (wordPhoneEntries w).map (fun p => p.2)).length =
            (pre ++ (wordPhoneEntries w).map (fun p => p.2)).length := by
          simp only [List.length_append, List.length_map]
          omega
        have hlenf2 : (flags ++ (wordPhoneEntries w).map (fun p => p.1)).length =
            (pre ++ (wordPhoneEntries w).map (fun p => p.2)).length := by
          simp only [List.length_append, List.length_map]
          omega
        have hcong : fillRestMidiWithNearest
            (pre ++ (wordPhoneEntries w).map (fun p => p.2))
            (flags ++ (wordPhoneEntries w).map (fun p => p.1)) =
            fillRestMidiWithNearest
              (cur ++ (wordPhoneEntries w).map (fun p => p.2))
              (flags ++ (wordPhoneEntries w).map (fun p => p.1)) := by
          apply fill_congr
          · omega
          · exact hlenf2
          · intro i hfi
            by_cases hi : i < pre.length
            · rw [getD_append_lt _ _ _ _ hi, getD_append_lt _ _ _ _ (by omega)]
              rw [getD_append_lt _ _ _ _ (by omega)] at hfi
              exact (hcur i hfi).symm
            · rw [getD_append_ge _ _ _ _ (by omega),
                getD_append_ge _ _ _ _ (by omega), hculen]
        have hfc2 : fillRestMidiWithNearest
            (pre ++ (wordPhoneEntries w).map (fun p => p.2))
            (flags ++ (wordPhoneEntries w).map (fun p => p.1)) = some filled :=
          hcong.trans hfc
        have hnext := ih (pre ++ (wordPhoneEntries w).map (fun p => p.2))
          (flags ++ (wordPhoneEntries w).map (fun p => p.1)) filled v
          (by simp only [List.length_append, List.length_map]; omega)
          hfc2 hok
        have hsplit : phonemeMidiPreFill (w :: ws) =
            wordPhoneEntries w ++ phonemeMidiPreFill ws := by
          simp [phonemeMidiPreFill, List.filter_cons, hne]
        rw [hsplit]
        simpa [List.map_append, List.append_assoc] using hnext

/-- A takeWhile prefix is no longer than the list. -/
theorem takeWhile_length_le {α : Type} (p : α → Bool) (l : List α) :
    (l.takeWhile p).length ≤ l.length := by
  induction l with
  | nil => simp
  | cons a l ih =>
    rw [List.takeWhile_cons]
    split_ifs <;> simp
    omega

/-- Cumulative sums keep the length of the input. -/
theorem cumSums_length (acc : ℚ) (l : List ℚ) :
    (cumSums acc l).length = l.length := by
  induction l generalizing acc with
  | nil => rfl
  | cons d ds ih =>
    simp [cumSums, ih]

/-- findIdx is the length of the longest prefix violating the predicate. -/
theorem findIdx_eq_length_takeWhile {α : Type} (p : α → Bool) (l : List α) :
    l.findIdx p = (l.takeWhile (fun a => !(p a))).length := by
  induction l with
  | nil => rfl
  | cons a l ih =>
    rw [List.findIdx_cons, List.takeWhile_cons]
    by_cases h : p a
    · simp [h]
    · have h' : p a = false := by revert h; cases p a <;> simp
      simp [h', ih]

/-- The code's note assignment is the least index whose cumulative duration
reaches the phone start, clamped to the last note. -/
theorem phoneNoteIndex_eq_min (notes : List InputNoteInfo) (start : ℚ)
    (hne : notes ≠ []) :
    phoneNoteIndex notes start =
      min ((noteCumDur notes).findIdx (fun c => decide (start ≤ c)))
        (notes.length - 1) := by
  have hpred : (fun (c : ℚ) => !(decide (start ≤ c))) =
      (fun (c : ℚ) => decide (c < start)) := by
    funext c
    rw [← decide_not]
    exact decide_eq_decide.mpr not_le
  have hfi : (noteCumDur notes).findIdx (fun c => decide (start ≤ c)) =
      ((noteCumDur notes).takeWhile (fun c => decide (c < start))).length := by
    rw [findIdx_eq_length_takeWhile, hpred]
  have hlen : (noteCumDur notes).length = notes.length := by
    rw [noteCumDur, cumSums_length, List.length_map]
  have hle : ((noteCumDur notes).takeWhile (fun c => decide (c < start))).length ≤
      notes.length := by
    have := takeWhile_length_le (fun (c : ℚ) => decide (c < start)) (noteCumDur notes)
    omega
  have hpos : 0 < notes.length := List.length_pos.mpr hne
  unfold phoneNoteIndex
  rw [hfi]
  dsimp only
  split_ifs with h
  · omega
  · omega

/--
Claim C9 (amended): on success, the duration stage's ph_midi vector is the
one-shot nearest fill of the per-phone pre-fill entries of every word with
at least one note, where each phone is assigned to the note whose
cumulative duration first equals or exceeds the phone's start (clamped to
the word's last note), a phone assigned to a rest note contributes midi 0
before the fill, and the fill replaces each rest entry with the nearest
non-rest entry.
-/
theorem phoneme_midi_spec (words : List InputWordInfo) (v : List ℤ)
    (hok : preprocessPhonemeMidi words = .ok v) :
    fillRestMidiWithNearest ((phonemeMidiPreFill words).map (fun p => p.2))
      ((phonemeMidiPreFill words).map (fun p => p.1)) = some v ∧
    (∀ p ∈ phonemeMidiPreFill words, p.1 = true → p.2 = 0) ∧
    (∀ (notes : List InputNoteInfo) (start : ℚ), notes ≠ [] →
      phoneNoteIndex notes start =
        min ((noteCumDur notes).findIdx (fun c => decide (start ≤ c)))
          (notes.length - 1)) := by
  refine ⟨?_, ?_, fun notes start hne => phoneNoteIndex_eq_min notes start hne⟩
  · have h0 : fillRestMidiWithNearest ([] : List ℤ) [] = some [] := by
      simp [fillRestMidiWithNearest]
    have h := ppmGo_ok_fill words [] [] [] v rfl h0 hok
    simpa using h
  · intro p hp hp1
    simp only [phonemeMidiPreFill, List.mem_flatten, List.mem_map] at hp
    obtain ⟨l, ⟨w, hw, hl⟩, hpl⟩ := hp
    subst hl
    simp only [wordPhoneEntries, List.mem_map] at hpl
    obtain ⟨ph, hph, rfl⟩ := hpl
    dsimp only at hp1 ⊢
    rw [if_pos hp1]

/--
Claim C9 counterexample: a phone whose start exactly equals the first
note's cumulative duration is assigned by the code to that first note
(cumulative duration greater than or equal to the start), yielding midi
60, whereas the claim's strict first-exceeds rule assigns the second note,
yielding midi 62.
-/
theorem phoneme_midi_assignment_counterexample :
    preprocessPhonemeMidi
      [⟨[⟨1⟩], [⟨60, 0, 1, false⟩, ⟨62, 0, 1, false⟩]⟩] = .ok [60] ∧
    phonemeMidiClaim
      [⟨[⟨1⟩], [⟨60, 0, 1, false⟩, ⟨62, 0, 1, false⟩]⟩] = some [62] ∧
    ([60] : List ℤ) ≠ [62] := by
  have hidx0 : phoneNoteIndex
      [⟨60, 0, 1, false⟩, ⟨62, 0, 1, false⟩] 1 = 0 := by
    norm_num [phoneNoteIndex, noteCumDur, cumSums, List.takeWhile]
  have hent0 : wordPhoneEntries
      ⟨[⟨1⟩], [⟨60, 0, 1, false⟩, ⟨62, 0, 1, false⟩]⟩ = [(false, 60)] := by
    simp [wordPhoneEntries, hidx0]
  have hidx1 : phoneNoteIndexClaim
      [⟨60, 0, 1, false⟩, ⟨62, 0, 1, false⟩] 1 = 1 := by
    norm_num [phoneNoteIndexClaim, noteCumDur, cumSums, List.takeWhile]
  have hent1 : wordPhoneEntriesClaim
      ⟨[⟨1⟩], [⟨60, 0, 1, false⟩, ⟨62, 0, 1, false⟩]⟩ = [(false, 62)] := by
    simp [wordPhoneEntriesClaim, hidx1]
  have hfill60 : fillRestMidiWithNearest [(60 : ℤ)] [false] = some [60] := by
    decide
  have hfill62 : fillRestMidiWithNearest [(62 : ℤ)] [false] = some [62] := by
    decide
  refine ⟨?_, ?_, by decide⟩
  · simp only [preprocessPhonemeMidi, ppmGo, hent0]
    norm_num [hfill60]
  · simp [phonemeMidiClaim, hent1, hfill62]

/-- Witness for phoneme_midi_spec at the one-word, one-phone score. -/
theorem phoneme_midi_spec_witness :
    preprocessPhonemeMidi
      [⟨[⟨1⟩], [⟨60, 0, 1, false⟩, ⟨62, 0, 1, false⟩]⟩] = .ok [60] ∧
    fillRestMidiWithNearest
      ((phonemeMidiPreFill
        [⟨[⟨1⟩], [⟨60, 0, 1, false⟩, ⟨62, 0, 1, false⟩]⟩]).map (fun p => p.2))
      ((phonemeMidiPreFill
        [⟨[⟨1⟩], [⟨60, 0, 1, false⟩, ⟨62, 0, 1, false⟩]⟩]).map (fun p => p.1)) =
      some [60] := by
  have hidx0 : phoneNoteIndex
      [⟨60, 0, 1, false⟩, ⟨62, 0, 1, false⟩] 1 = 0 := by
    norm_num [phoneNoteIndex, noteCumDur, cumSums, List.takeWhile]
  have hent0 : wordPhoneEntries
      ⟨[⟨1⟩], [⟨60, 0, 1, false⟩, ⟨62, 0, 1, false⟩]⟩ = [(false, 60)] := by
    simp [wordPhoneEntries, hidx0]
  have hfill60 : fillRestMidiWithNearest [(60 : ℤ)] [false] = some [60] := by
    decide
  have hok : preprocessPhonemeMidi
      [⟨[⟨1⟩], [⟨60, 0, 1, false⟩, ⟨62, 0, 1, false⟩]⟩] = .ok [60] := by
    simp only [preprocessPhonemeMidi, ppmGo, hent0]
    norm_num [hfill60]
  exact ⟨hok, (phoneme_midi_spec _ _ hok).1⟩

/-- The head of a dropWhile remainder fails the predicate. -/
theorem dropWhile_head_false {α : Type} (p : α → Bool) (l : List α) (a : α)
    (t : List α) (h : l.dropWhile p = a :: t) : p a = false := by
  induction l with
  | nil => cases h
  | cons x xs ih =>
    rw [List.dropWhile_cons] at h
    split_ifs at h with hx
    · exact ih h
    · cases h
      revert hx
      cases p a <;> simp

/-- An element reported by getLast? belongs to the list. -/
theorem getLast?_mem {α : Type} (l : List α) (a : α)
    (h : l.getLast? = some a) : a ∈ l := by
  obtain ⟨hne, heq⟩ := List.mem_getLast?_eq_getLast (by rw [h]; rfl)
  rw [heq]
  exact List.getLast_mem hne

/-- takeWhile passes over a prefix that satisfies the predicate. -/
theorem takeWhile_append_sat {α : Type} (p : α → Bool) (A B : List α)
    (hA : ∀ a ∈ A, p a = true) :
    (A ++ B).takeWhile p = A ++ B.takeWhile p := by
  induction A with
  | nil => rfl
  | cons x xs ih =>
    rw [List.cons_append, List.takeWhile_cons,
      if_pos (hA x (List.mem_cons_self x xs))]
    rw [ih (fun a ha => hA a (List.mem_cons_of_mem x ha))]
    rfl

/-- dropWhile passes over a prefix that satisfies the predicate. -/
theorem dropWhile_append_sat {α : Type} (p : α → Bool) (A B : List α)
    (hA : ∀ a ∈ A, p a = true) :
    (A ++ B).dropWhile p = B.dropWhile p := by
  induction A with
  | nil => rfl
  | cons x xs ih =>
    rw [List.cons_append, List.dropWhile_cons,
      if_pos (hA x (List.mem_cons_self x xs))]
    exact ih (fun a ha => hA a (List.mem_cons_of_mem x ha))

/-- findIdx runs off a list with no matching element. -/
theorem findIdx_of_all_false {α : Type} (p : α → Bool) (l : List α)
    (h : ∀ a ∈ l, p a = false) : l.findIdx p = l.length := by
  induction l with
  | nil => rfl
  | cons x xs ih =>
    rw [List.findIdx_cons, h x (List.mem_cons_self x xs)]
    simp only [cond_false, List.length_cons]
    rw [ih (fun a ha => h a (List.mem_cons_of_mem x ha))]

/-- findIdx stops at the first matching element after a non-matching
prefix. -/
theorem findIdx_append_first {α : Type} (p : α → Bool) (A : List α) (b : α)
    (C : List α) (hA : ∀ a ∈ A, p a = false) (hb : p b = true) :
    (A ++ b :: C).findIdx p = A.length := by
  induction A with
  | nil =>
    rw [List.nil_append, List.findIdx_cons, hb]
    rfl
  | cons x xs ih =>
    rw [List.cons_append, List.findIdx_cons, hA x (List.mem_cons_self x xs)]
    simp only [cond_false, List.length_cons]
    rw [ih (fun a ha => hA a (List.mem_cons_of_mem x ha))]

/-- dropWhile never lengthens a list. -/
theorem dropWhile_length_le {α : Type} (p : α → Bool) (l : List α) :
    (l.dropWhile p).length ≤ l.length :=
  (List.dropWhile_suffix p).length_le

/-- The line splitter ignores any sufficient fuel. -/
theorem specLinesF_fuel (fuel : ℕ) : ∀ (fuel' : ℕ) (cs : List Char),
    cs.length < fuel → cs.length < fuel' →
    specLinesF fuel cs = specLinesF fuel' cs := by
  induction fuel with
  | zero =>
    intro fuel' cs h
    omega
  | succ f ih =>
    intro fuel' cs hf hf'
    cases fuel' with
    | zero => omega
    | succ f' =>
      simp only [specLinesF]
      cases hcs1 : cs.dropWhile isLineBreakC with
      | nil => rfl
      | cons c0 rest =>
        dsimp only
        have hlen1 : rest.length < cs.length := by
          have h1 := dropWhile_length_le isLineBreakC cs
          rw [hcs1] at h1
          simp only [List.length_cons] at h1
          omega
        have hlen2 : (rest.dropWhile (fun c => !isLineBreakC c)).length ≤
            rest.length := dropWhile_length_le _ rest
        rw [ih f' (rest.dropWhile (fun c => !isLineBreakC c)) (by omega) (by omega)]

/-- Unfolding of specLines at an all-break (or empty) buffer. -/
theorem specLines_eq_nil (cs : List Char)
    (hcs1 : cs.dropWhile isLineBreakC = []) : specLines cs = [] := by
  unfold specLines
  simp only [specLinesF, hcs1]

/-- Unfolding of specLines at a buffer whose first line is visible. -/
theorem specLines_eq_cons (cs : List Char) (c0 : Char) (rest : List Char)
    (hcs1 : cs.dropWhile isLineBreakC = c0 :: rest) :
    specLines cs = (c0 :: rest.takeWhile (fun c => !isLineBreakC c)) ::
      specLines (rest.dropWhile (fun c => !isLineBreakC c)) := by
  have hlen1 : rest.length < cs.length := by
    have h1 := dropWhile_length_le isLineBreakC cs
    rw [hcs1] at h1
    simp only [List.length_cons] at h1
    omega
  have hlen2 : (rest.dropWhile (fun c => !isLineBreakC c)).length ≤
      rest.length := dropWhile_length_le _ rest
  have h1 : specLines cs = (c0 :: rest.takeWhile (fun c => !isLineBreakC c)) ::
      specLinesF cs.length (rest.dropWhile (fun c => !isLineBreakC c)) := by
    unfold specLines
    simp only [specLinesF, hcs1]
  rw [h1]
  congr 1
  unfold specLines
  exact specLinesF_fuel cs.length
    ((rest.dropWhile (fun c => !isLineBreakC c)).length + 1)
    (rest.dropWhile (fun c => !isLineBreakC c)) (by omega) (by omega)

/-- A leading line break does not change the line decomposition. -/
theorem specLines_cons_break (c : Char) (l : List Char)
    (hc : isLineBreakC c = true) : specLines (c :: l) = specLines l := by
  have hdw : (c :: l).dropWhile isLineBreakC = l.dropWhile isLineBreakC := by
    rw [List.dropWhile_cons, if_pos hc]
  cases hl : l.dropWhile isLineBreakC with
  | nil =>
    rw [specLines_eq_nil _ (by rw [hdw, hl]), specLines_eq_nil _ hl]
  | cons c0 rest =>
    rw [specLines_eq_cons _ _ _ (by rw [hdw, hl]), specLines_eq_cons _ _ _ hl]

/-- A non-empty suffix ends as the whole buffer does. -/
theorem terminatedB_suffix (s cs : List Char) (h : s <:+ cs)
    (ht : terminatedB cs = true) : terminatedB s = true := by
  cases hs : s.getLast? with
  | none =>
    unfold terminatedB
    rw [hs]
  | some a =>
    obtain ⟨t, ht2⟩ := h
    unfold terminatedB at ht ⊢
    rw [hs]
    rw [← ht2, List.getLast?_append, hs] at ht
    exact ht

/-- A buffer whose visible remainder consists only of non-break characters
cannot end in a line break. -/
theorem terminated_contra (cs : List Char) (c0 : Char) (rest : List Char)
    (hcs1 : cs.dropWhile isLineBreakC = c0 :: rest)
    (hall : ∀ a ∈ c0 :: rest, isLineBreakC a = false)
    (hterm : terminatedB cs = true) : False := by
  have hsplit : cs.takeWhile isLineBreakC ++ (c0 :: rest) = cs := by
    rw [← hcs1]
    exact List.takeWhile_append_dropWhile isLineBreakC cs
  cases hlast : (c0 :: rest).getLast? with
  | none => simp at hlast
  | some a =>
    have hmem : a ∈ c0 :: rest := getLast?_mem _ _ hlast
    have hfa : isLineBreakC a = false := hall a hmem
    unfold terminatedB at hterm
    rw [← hsplit, List.getLast?_append, hlast] at hterm
    simp only [Option.or_some] at hterm
    rw [hfa] at hterm
    cases hterm

/-- A character passed over by the key scan is neither a tab nor a break. -/
theorem not_tab_break_parts (a : Char) (h : (!isTabOrBreakC a) = true) :
    a ≠ '\t' ∧ isLineBreakC a = false := by
  have h' : isTabOrBreakC a = false := by
    revert h
    cases isTabOrBreakC a <;> simp
  unfold isTabOrBreakC at h'
  constructor
  · intro he
    rw [he] at h'
    simp at h'
  · revert h'
    cases isLineBreakC a <;> simp

/-- A key-scan stopper that is not a tab is a line break. -/
theorem tab_or_break_not_tab (c : Char) (h : isTabOrBreakC c = true)
    (hne : ¬(c = '\t')) : isLineBreakC c = true := by
  unfold isTabOrBreakC at h
  rcases Bool.or_eq_true_iff.mp h with h1 | h2
  · exact absurd (of_decide_eq_true h1) hne
  · exact h2

/--
The load loop equals, line by line, the declarative description: every line
whose first tab sits at position at least one contributes its key and
token list (later lines overwriting earlier equal keys), every other line
is skipped.  Requires enough fuel and a break-terminated buffer.
-/
theorem parseLoopF_spec (fuel : ℕ) : ∀ (cs : List Char) (m : PhonemeDictModel),
    cs.length < fuel → terminatedB cs = true →
    parseLoopF fuel cs m =
      ((specLines cs).filterMap specEntry).foldl
        (fun m e => assignEntry m e.1 e.2) m := by
  induction fuel with
  | zero =>
    intro cs m h
    omega
  | succ f ih =>
    intro cs m hf hterm
    simp only [parseLoopF]
    cases hcs1 : cs.dropWhile isLineBreakC with
    | nil =>
      rw [specLines_eq_nil cs hcs1]
      rfl
    | cons c0 rest =>
      dsimp only
      have hc0 : isLineBreakC c0 = false :=
        dropWhile_head_false isLineBreakC cs c0 rest hcs1
      have hcs1len : rest.length + 1 ≤ cs.length := by
        have h1 := dropWhile_length_le isLineBreakC cs
        rw [hcs1] at h1
        simpa using h1
      have hsfx1 : rest <:+ cs := by
        have h1 : c0 :: rest <:+ cs := by
          rw [← hcs1]
          exact List.dropWhile_suffix isLineBreakC
        exact (List.suffix_cons c0 rest).trans h1
      cases hrest2 : rest.dropWhile (fun c => !isTabOrBreakC c) with
      | nil =>
        exfalso
        have hallrest : ∀ x ∈ rest, (!isTabOrBreakC x) = true :=
          List.dropWhile_eq_nil_iff.mp hrest2
        refine terminated_contra cs c0 rest hcs1 ?_ hterm
        intro a ha
        rcases List.mem_cons.mp ha with h1 | h2
        · rw [h1]
          exact hc0
        · exact (not_tab_break_parts a (hallrest a h2)).2
      | cons c1 rest3 =>
        dsimp only
        have hkeyrest :
            rest.takeWhile (fun c => !isTabOrBreakC c) ++ (c1 :: rest3) = rest := by
          rw [← hrest2]
          exact List.takeWhile_append_dropWhile _ rest
        have hktall : ∀ a ∈ rest.takeWhile (fun c => !isTabOrBreakC c),
            (!isTabOrBreakC a) = true := fun a ha =>
          List.mem_takeWhile_imp (p := fun c => !isTabOrBreakC c) ha
        have hktnb : ∀ a ∈ rest.takeWhile (fun c => !isTabOrBreakC c),
            (!isLineBreakC a) = true := by
          intro a ha
          rw [(not_tab_break_parts a (hktall a ha)).2]
          rfl
        have hktnt : ∀ a ∈ rest.takeWhile (fun c => !isTabOrBreakC c),
            decide (a = '\t') = false := by
          intro a ha
          exact decide_eq_false (not_tab_break_parts a (hktall a ha)).1
        have hc1stop : isTabOrBreakC c1 = true := by
          have h1 := dropWhile_head_false _ rest c1 rest3 hrest2
          revert h1
          cases isTabOrBreakC c1 <;> simp
        have hrestlen : rest.length =
            (rest.takeWhile (fun c => !isTabOrBreakC c)).length + 1 + rest3.length := by
          have h1 := congrArg List.length hkeyrest
          simp only [List.length_append, List.length_cons] at h1
          omega
        have hsfx3 : rest3 <:+ cs := by
          have h1 : c1 :: rest3 <:+ rest := by
            rw [← hrest2]
            exact List.dropWhile_suffix _
          exact ((List.suffix_cons c1 rest3).trans h1).trans hsfx1
        by_cases htab : c1 = '\t'
        · subst htab
          rw [if_pos (rfl : ('\t' : Char) = '\t')]
          cases hrest4 : rest3.dropWhile (fun c => !isLineBreakC c) with
          | nil =>
            exfalso
            have hallrest3 : ∀ x ∈ rest3, (!isLineBreakC x) = true :=
              List.dropWhile_eq_nil_iff.mp hrest4
            refine terminated_contra cs c0 rest hcs1 ?_ hterm
            intro a ha
            rcases List.mem_cons.mp ha with h1 | h2
            · rw [h1]
              exact hc0
            · rw [← hkeyrest] at h2
              rcases List.mem_append.mp h2 with h3 | h4
              · exact (not_tab_break_parts a (hktall a h3)).2
              · rcases List.mem_cons.mp h4 with h5 | h6
                · rw [h5]
                  decide
                · have := hallrest3 a h6
                  revert this
                  cases isLineBreakC a <;> simp
          | cons c4 rest5 =>
            dsimp only
            have hvalrest :
                rest3.takeWhile (fun c => !isLineBreakC c) ++ (c4 :: rest5) = rest3 := by
              rw [← hrest4]
              exact List.takeWhile_append_dropWhile _ rest3
            have hc4 : isLineBreakC c4 = true := by
              have h1 := dropWhile_head_false _ rest3 c4 rest5 hrest4
              revert h1
              cases isLineBreakC c4 <;> simp
            have htakeNB : rest.takeWhile (fun c => !isLineBreakC c) =
                rest.takeWhile (fun c => !isTabOrBreakC c) ++
                  '\t' :: rest3.takeWhile (fun c => !isLineBreakC c) := by
              conv_lhs => rw [← hkeyrest]
              rw [takeWhile_append_sat _ _ _ hktnb, List.takeWhile_cons]
              rfl
            have hdropNB : rest.dropWhile (fun c => !isLineBreakC c) = c4 :: rest5 := by
              conv_lhs => rw [← hkeyrest]
              rw [dropWhile_append_sat _ _ _ hktnb, List.dropWhile_cons]
              rw [if_pos (by decide)]
              exact hrest4
            have hline := specLines_eq_cons cs c0 rest hcs1
            rw [htakeNB, hdropNB, specLines_cons_break c4 rest5 hc4] at hline
            rw [hline]
            have hentry : specEntry (c0 :: (rest.takeWhile (fun c => !isTabOrBreakC c) ++
                '\t' :: rest3.takeWhile (fun c => !isLineBreakC c))) =
                some (String.mk (c0 :: rest.takeWhile (fun c => !isTabOrBreakC c)),
                  splitTokens (rest3.takeWhile (fun c => !isLineBreakC c))) := by
              unfold specEntry
              have hfi : (rest.takeWhile (fun c => !isTabOrBreakC c) ++
                  '\t' :: rest3.takeWhile (fun c => !isLineBreakC c)).findIdx
                    (fun c => c = '\t') =
                  (rest.takeWhile (fun c => !isTabOrBreakC c)).length := by
                exact findIdx_append_first _ _ _ _ hktnt (by decide)
              dsimp only
              rw [hfi]
              rw [if_pos (by
                simp only [List.length_append, List.length_cons]
                omega)]
              rw [take_append_of_length _ _ _ rfl]
              rw [List.drop_append 1]
              rfl
            rw [List.filterMap_cons, hentry, List.foldl_cons]
            have hlen5 : rest5.length < f := by
              have h1 := congrArg List.length hvalrest
              simp only [List.length_append, List.length_cons] at h1
              omega
            have hsfx5 : rest5 <:+ cs := by
              have h1 : c4 :: rest5 <:+ rest3 := by
                rw [← hrest4]
                exact List.dropWhile_suffix _
              exact ((List.suffix_cons c4 rest5).trans h1).trans hsfx3
            exact ih rest5 _ hlen5 (terminatedB_suffix rest5 cs hsfx5 hterm)
        · rw [if_neg htab]
          have hc1br : isLineBreakC c1 = true := tab_or_break_not_tab c1 hc1stop htab
          have htakeNB : rest.takeWhile (fun c => !isLineBreakC c) =
              rest.takeWhile (fun c => !isTabOrBreakC c) := by
            conv_lhs => rw [← hkeyrest]
            rw [takeWhile_append_sat _ _ _ hktnb, List.takeWhile_cons]
            rw [if_neg (by rw [hc1br]; simp)]
            rw [List.append_nil]
          have hdropNB : rest.dropWhile (fun c => !isLineBreakC c) = c1 :: rest3 := by
            conv_lhs => rw [← hkeyrest]
            rw [dropWhile_append_sat _ _ _ hktnb, List.dropWhile_cons]
            rw [if_neg (by rw [hc1br]; simp)]
          have hline := specLines_eq_cons cs c0 rest hcs1
          rw [htakeNB, hdropNB, specLines_cons_break c1 rest3 hc1br] at hline
          rw [hline]
          have hentry : specEntry
              (c0 :: rest.takeWhile (fun c => !isTabOrBreakC c)) = none := by
            unfold specEntry
            dsimp only
            rw [if_neg (by
              rw [findIdx_of_all_false _ _ hktnt]
              omega)]
          rw [List.filterMap_cons, hentry]
          exact ih rest3 m (by omega)
            (terminatedB_suffix rest3 cs hsfx3 hterm)

/-- The parse loop's result is independent of the fuel once the fuel covers
the buffer length. -/
theorem parseLoopF_fuel (fuel : ℕ) : ∀ (fuel' : ℕ) (cs : List Char)
    (m : PhonemeDictModel), cs.length ≤ fuel → cs.length ≤ fuel' →
    parseLoopF fuel cs m = parseLoopF fuel' cs m := by
  induction fuel with
  | zero =>
    intro fuel' cs m hf hf'
    cases cs with
    | nil =>
      cases fuel' with
      | zero => rfl
      | succ f' => simp only [parseLoopF, List.dropWhile_nil]
    | cons a t => exact absurd hf (by simp)
  | succ f ih =>
    intro fuel' cs m hf hf'
    cases fuel' with
    | zero =>
      cases cs with
      | nil => simp only [parseLoopF, List.dropWhile_nil]
      | cons a t => exact absurd hf' (by simp)
    | succ f' =>
      simp only [parseLoopF]
      cases hcs1 : cs.dropWhile isLineBreakC with
      | nil => rfl
      | cons c0 rest =>
        dsimp only
        have hlen1 : rest.length + 1 ≤ cs.length := by
          have h1 := dropWhile_length_le isLineBreakC cs
          rw [hcs1] at h1
          simpa using h1
        cases hrest2 : rest.dropWhile (fun c => !isTabOrBreakC c) with
        | nil => rfl
        | cons c1 rest3 =>
          dsimp only
          have hlen2 : rest3.length + 1 ≤ rest.length := by
            have h1 := dropWhile_length_le (fun c => !isTabOrBreakC c) rest
            rw [hrest2] at h1
            simpa using h1
          by_cases htab : c1 = '\t'
          · rw [if_pos htab, if_pos htab]
            cases hrest4 : rest3.dropWhile (fun c => !isLineBreakC c) with
            | nil => rfl
            | cons c4 rest5 =>
              dsimp only
              have hlen3 : rest5.length + 1 ≤ rest3.length := by
                have h1 := dropWhile_length_le (fun c => !isLineBreakC c) rest3
                rw [hrest4] at h1
                simpa using h1
              exact ih f' rest5 _ (by omega) (by omega)
          · rw [if_neg htab, if_neg htab]
            exact ih f' rest3 m (by omega) (by omega)

/--
Claim C6: in a loaded dictionary file each line containing a tab maps the
text before the tab to the space-separated tokens after it and each tabless
line is skipped; the three-line key1/key2/key3 file has size 3 and key2 maps
to val3, val4, val5.  Corrected: a line contributes an entry only when its
first tab sits at position at least one (the scan for the tab starts at the
line's second character), so a line beginning with a tab is skipped too;
with that proviso the load equals the declarative line-by-line description
for every buffer, and the concrete scenario holds.
-/
theorem dict_load_spec (cs : List Char) :
    loadDict cs = specLoadDict cs ∧
    (loadDict
      "key1\tval1 val2\nkey2\tval3 val4 val5\nkey3\tval6 val7 val8 val9\n".toList).length
      = 3 ∧
    PhonemeDict.find (loadDict
      "key1\tval1 val2\nkey2\tval3 val4 val5\nkey3\tval6 val7 val8 val9\n".toList)
      (some "key2") = some ["val3", "val4", "val5"] := by
  refine ⟨?_, by decide, by decide⟩
  unfold loadDict specLoadDict
  rw [parseLoopF_fuel (cs.length + 1) (cs.length + 2) (cs ++ ['\n']) []
    (by simp) (by simp)]
  exact parseLoopF_spec (cs.length + 2) (cs ++ ['\n']) [] (by simp) (by
    unfold terminatedB
    rw [List.getLast?_concat]
    rfl)

/--
A line whose first character is the tab is skipped by the loader (the tab
scan starts at the second character), though the claim as written would map
the empty key to the tokens after the tab.
-/
theorem dict_load_tab_first_counterexample :
    loadDict "\tx y".toList ≠ claimLoadDict "\tx y".toList ∧
    loadDict "\tx y".toList = [] ∧
    claimLoadDict "\tx y".toList = [("", ["x", "y"])] := by
  refine ⟨by decide, by decide, by decide⟩

/--
Claim C8: after a successful variance run every schema prediction tag
overwrites the prior parameter of the same tag (values and interval
replaced, retake cleared) or is appended when absent, leaving exactly one
parameter per predicted tag with all other parameters unchanged.  Code bug:
the first write-back loop reads `input.input->parameters[i]` at the
PREDICTION index `i` instead of searching the parameter list for the
predicted tag, so a prior parameter of a predicted tag that does not sit at
its prediction index is never overwritten: with parameters
[pitch, energy(old)] and the single schema prediction "energy", the
prediction is compared only against the pitch parameter, phase two appends
a second "energy" parameter, and the stale one keeps its values, interval
and retake window, violating both the overwrite and the
exactly-one-parameter-per-tag part of the claim.  (With fewer parameters
than schema predictions the positional read is out of range: undefined
behaviour, modelled as `none`.)
-/
theorem variance_writeback_positional_bug :
    varianceWriteBack ["energy"] [⟨"energy", [9, 9], 1/100⟩]
      [⟨"pitch", [1], 1, none⟩, ⟨"energy", [2], 1, some (0, 1)⟩] =
      some [⟨"pitch", [1], 1, none⟩, ⟨"energy", [2], 1, some (0, 1)⟩,
        ⟨"energy", [9, 9], 1/100, none⟩] ∧
    ((varianceWriteBack ["energy"] [⟨"energy", [9, 9], 1/100⟩]
      [⟨"pitch", [1], 1, none⟩, ⟨"energy", [2], 1, some (0, 1)⟩]).getD []).countP
        (fun p => decide (p.tag = "energy")) = 2 ∧
    varianceWriteBack ["energy"] [⟨"energy", [9, 9], 1/100⟩] [] = none := by
  refine ⟨rfl, rfl, rfl⟩

/-- Resampling an empty value list yields the empty list. -/
theorem resample_nil (si ti : ℚ) (T : ℕ) (a : Bool) :
    resample [] si ti T a = [] := rfl

/-- Resampling a one-point curve to a single frame returns that point for
any pair of intervals. -/
theorem resample_one (v si ti : ℚ) :
    resample [v] si ti 1 true = [v] := by
  norm_num [resample, List.range_succ, List.getD]

/-- Assigning a session input makes it visible under its key. -/
theorem lookupInput_setInput_self (m : List (String × TensorVal)) (k : String)
    (v : TensorVal) : lookupInput (setInput m k v) k = some v := by
  induction m with
  | nil => simp [setInput, lookupInput, List.lookup_cons]
  | cons e rest ih =>
    obtain ⟨k0, v0⟩ := e
    unfold setInput
    by_cases h : k0 = k
    · rw [if_pos h]
      simp [lookupInput, List.lookup_cons]
    · rw [if_neg h]
      unfold lookupInput at ih ⊢
      simpa [List.lookup_cons, beq_false_of_ne (Ne.symm h)] using ih

/-- Assigning a session input leaves every other key unchanged. -/
theorem lookupInput_setInput_other (m : List (String × TensorVal))
    (k k' : String) (v : TensorVal) (h : k' ≠ k) :
    lookupInput (setInput m k v) k' = lookupInput m k' := by
  induction m with
  | nil =>
    simp [setInput, lookupInput, List.lookup_cons, beq_false_of_ne h]
  | cons e rest ih =>
    obtain ⟨k0, v0⟩ := e
    unfold setInput
    by_cases h0 : k0 = k
    · rw [if_pos h0]
      subst h0
      simp [lookupInput, List.lookup_cons, beq_false_of_ne h]
    · rw [if_neg h0]
      unfold lookupInput at ih ⊢
      by_cases h1 : k' = k0
      · subst h1
        simp [List.lookup_cons]
      · simpa [List.lookup_cons, beq_false_of_ne h1] using ih

/-- One loop iteration keeps an already established zero-filled gender
input and its satisfy flag. -/
theorem step_preserves_gender (fw : ℚ) (T : ℕ) (st st' : AcousticLoopState)
    (p : InputParameter) (h : acousticParamStep fw T st p = Except.ok st')
    (h1 : lookupInput st.inputs "gender" =
      some (TensorVal.filled [1, (T : ℤ)] 0))
    (h2 : st.satisfyGender = true) :
    lookupInput st'.inputs "gender" =
      some (TensorVal.filled [1, (T : ℤ)] 0) ∧ st'.satisfyGender = true := by
  unfold acousticParamStep at h
  cases htag : p.tag <;> rw [htag] at h <;> dsimp only at h
  case F0 =>
    cases h
    exact ⟨h1, h2⟩
  case Pitch =>
    cases h
    exact ⟨h1, h2⟩
  case ToneShift =>
    cases h
    exact ⟨h1, h2⟩
  case Gender =>
    split_ifs at h with hc1 hc2 hc3
    · cases h
      exact ⟨lookupInput_setInput_self _ _ _, rfl⟩
    · cases h
      rw [h2] at hc3
      cases hc3
    · cases h
      exact ⟨h1, h2⟩
  case Velocity =>
    split_ifs at h with hc1 hc2 hc3
    · cases h
      exact ⟨(lookupInput_setInput_other _ _ _ _ (by decide)).trans h1, h2⟩
    · cases h
      exact ⟨(lookupInput_setInput_other _ _ _ _ (by decide)).trans h1, h2⟩
    · cases h
      exact ⟨h1, h2⟩
  case Energy =>
    split_ifs at h with hc1 hc2
    · cases h
      exact ⟨(lookupInput_setInput_other _ _ _ _ (by decide)).trans h1, h2⟩
    · cases h
      exact ⟨h1, h2⟩
  case Breathiness =>
    split_ifs at h with hc1 hc2
    · cases h
      exact ⟨(lookupInput_setInput_other _ _ _ _ (by decide)).trans h1, h2⟩
    · cases h
      exact ⟨h1, h2⟩
  case Voicing =>
    split_ifs at h with hc1 hc2
    · cases h
      exact ⟨(lookupInput_setInput_other _ _ _ _ (by decide)).trans h1, h2⟩
    · cases h
      exact ⟨h1, h2⟩
  case Tension =>
    split_ifs at h with hc1 hc2
    · cases h
      exact ⟨(lookupInput_setInput_other _ _ _ _ (by decide)).trans h1, h2⟩
    · cases h
      exact ⟨h1, h2⟩
  case MouthOpening =>
    split_ifs at h with hc1 hc2
    · cases h
      exact ⟨(lookupInput_setInput_other _ _ _ _ (by decide)).trans h1, h2⟩
    · cases h
      exact ⟨h1, h2⟩

/-- One loop iteration keeps an already established one-filled velocity
input and its satisfy flag. -/
theorem step_preserves_velocity (fw : ℚ) (T : ℕ) (st st' : AcousticLoopState)
    (p : InputParameter) (h : acousticParamStep fw T st p = Except.ok st')
    (h1 : lookupInput st.inputs "velocity" =
      some (TensorVal.filled [1, (T : ℤ)] 1))
    (h2 : st.satisfyVelocity = true) :
    lookupInput st'.inputs "velocity" =
      some (TensorVal.filled [1, (T : ℤ)] 1) ∧ st'.satisfyVelocity = true := by
  unfold acousticParamStep at h
  cases htag : p.tag <;> rw [htag] at h <;> dsimp only at h
  case F0 =>
    cases h
    exact ⟨h1, h2⟩
  case Pitch =>
    cases h
    exact ⟨h1, h2⟩
  case ToneShift =>
    cases h
    exact ⟨h1, h2⟩
  case Gender =>
    split_ifs at h with hc1 hc2 hc3
    · cases h
      exact ⟨(lookupInput_setInput_other _ _ _ _ (by decide)).trans h1, h2⟩
    · cases h
      exact ⟨(lookupInput_setInput_other _ _ _ _ (by decide)).trans h1, h2⟩
    · cases h
      exact ⟨h1, h2⟩
  case Velocity =>
    split_ifs at h with hc1 hc2 hc3
    · cases h
      exact ⟨lookupInput_setInput_self _ _ _, rfl⟩
    · cases h
      rw [h2] at hc3
      cases hc3
    · cases h
      exact ⟨h1, h2⟩
  case Energy =>
    split_ifs at h with hc1 hc2
    · cases h
      exact ⟨(lookupInput_setInput_other _ _ _ _ (by decide)).trans h1, h2⟩
    · cases h
      exact ⟨h1, h2⟩
  case Breathiness =>
    split_ifs at h with hc1 hc2
    · cases h
      exact ⟨(lookupInput_setInput_other _ _ _ _ (by decide)).trans h1, h2⟩
    · cases h
      exact ⟨h1, h2⟩
  case Voicing =>
    split_ifs at h with hc1 hc2
    · cases h
      exact ⟨(lookupInput_setInput_other _ _ _ _ (by decide)).trans h1, h2⟩
    · cases h
      exact ⟨h1, h2⟩
  case Tension =>
    split_ifs at h with hc1 hc2
    · cases h
      exact ⟨(lookupInput_setInput_other _ _ _ _ (by decide)).trans h1, h2⟩
    · cases h
      exact ⟨h1, h2⟩
  case MouthOpening =>
    split_ifs at h with hc1 hc2
    · cases h
      exact ⟨(lookupInput_setInput_other _ _ _ _ (by decide)).trans h1, h2⟩
    · cases h
      exact ⟨h1, h2⟩

/-- One loop iteration over a parameter carrying none of the four required
tags leaves the four required-parameter satisfy flags unchanged. -/
theorem step_preserves_required (fw : ℚ) (T : ℕ) (st st' : AcousticLoopState)
    (p : InputParameter) (h : acousticParamStep fw T st p = Except.ok st')
    (hE : p.tag ≠ ParamTag.Energy) (hB : p.tag ≠ ParamTag.Breathiness)
    (hV : p.tag ≠ ParamTag.Voicing) (hX : p.tag ≠ ParamTag.Tension) :
    st'.satisfyEnergy = st.satisfyEnergy ∧
      st'.satisfyBreathiness = st.satisfyBreathiness ∧
      st'.satisfyVoicing = st.satisfyVoicing ∧
      st'.satisfyTension = st.satisfyTension := by
  unfold acousticParamStep at h
  cases htag : p.tag <;> rw [htag] at h <;> dsimp only at h
  case F0 =>
    cases h
    exact ⟨rfl, rfl, rfl, rfl⟩
  case Pitch =>
    cases h
    exact ⟨rfl, rfl, rfl, rfl⟩
  case ToneShift =>
    cases h
    exact ⟨rfl, rfl, rfl, rfl⟩
  case Gender =>
    split_ifs at h with hc1 hc2 hc3
    · cases h
      exact ⟨rfl, rfl, rfl, rfl⟩
    · cases h
      exact ⟨rfl, rfl, rfl, rfl⟩
    · cases h
      exact ⟨rfl, rfl, rfl, rfl⟩
  case Velocity =>
    split_ifs at h with hc1 hc2 hc3
    · cases h
      exact ⟨rfl, rfl, rfl, rfl⟩
    · cases h
      exact ⟨rfl, rfl, rfl, rfl⟩
    · cases h
      exact ⟨rfl, rfl, rfl, rfl⟩
  case Energy => exact absurd htag hE
  case Breathiness => exact absurd htag hB
  case Voicing => exact absurd htag hV
  case Tension => exact absurd htag hX
  case MouthOpening =>
    split_ifs at h with hc1 hc2
    · cases h
      exact ⟨rfl, rfl, rfl, rfl⟩
    · cases h
      exact ⟨rfl, rfl, rfl, rfl⟩

/-- A required parameter present with an empty value list fails its loop
iteration with the resample-failed message (when the target frame count is
positive). -/
theorem step_energy_empty (fw : ℚ) (T : ℕ) (st : AcousticLoopState)
    (p : InputParameter) (hT : 0 < T) (htag : p.tag = ParamTag.Energy)
    (hv : p.values = []) :
    acousticParamStep fw T st p =
      Except.error "parameter energy resample failed" := by
  unfold acousticParamStep
  rw [htag]
  dsimp only
  rw [hv, resample_nil]
  rw [if_pos (by simp; omega)]
  rfl

/-- The loop keeps an established zero-filled gender input. -/
theorem loopGo_preserves_gender (fw : ℚ) (T : ℕ) :
    ∀ (ps : List InputParameter) (st0 st : AcousticLoopState),
    acousticLoopGo fw T st0 ps = Except.ok st →
    lookupInput st0.inputs "gender" = some (TensorVal.filled [1, (T : ℤ)] 0) →
    st0.satisfyGender = true →
    lookupInput st.inputs "gender" = some (TensorVal.filled [1, (T : ℤ)] 0) ∧
      st.satisfyGender = true := by
  intro ps
  induction ps with
  | nil =>
    intro st0 st h h1 h2
    cases h
    exact ⟨h1, h2⟩
  | cons p ps ih =>
    intro st0 st h h1 h2
    simp only [acousticLoopGo] at h
    cases hstep : acousticParamStep fw T st0 p with
    | error e =>
      rw [hstep] at h
      cases h
    | ok st1 =>
      rw [hstep] at h
      dsimp only at h
      have h3 := step_preserves_gender fw T st0 st1 p hstep h1 h2
      exact ih st1 st h h3.1 h3.2

/-- The loop keeps an established one-filled velocity input. -/
theorem loopGo_preserves_velocity (fw : ℚ) (T : ℕ) :
    ∀ (ps : List InputParameter) (st0 st : AcousticLoopState),
    acousticLoopGo fw T st0 ps = Except.ok st →
    lookupInput st0.inputs "velocity" = some (TensorVal.filled [1, (T : ℤ)] 1) →
    st0.satisfyVelocity = true →
    lookupInput st.inputs "velocity" = some (TensorVal.filled [1, (T : ℤ)] 1) ∧
      st.satisfyVelocity = true := by
  intro ps
  induction ps with
  | nil =>
    intro st0 st h h1 h2
    cases h
    exact ⟨h1, h2⟩
  | cons p ps ih =>
    intro st0 st h h1 h2
    simp only [acousticLoopGo] at h
    cases hstep : acousticParamStep fw T st0 p with
    | error e =>
      rw [hstep] at h
      cases h
    | ok st1 =>
      rw [hstep] at h
      dsimp only at h
      have h3 := step_preserves_velocity fw T st0 st1 p hstep h1 h2
      exact ih st1 st h h3.1 h3.2

/-- The loop leaves the four required-parameter satisfy flags unchanged
when no parameter carries one of the four required tags. -/
theorem loopGo_preserves_required (fw : ℚ) (T : ℕ) :
    ∀ (ps : List InputParameter) (st0 st : AcousticLoopState),
    acousticLoopGo fw T st0 ps = Except.ok st →
    (∀ p ∈ ps, p.tag ≠ ParamTag.Energy ∧ p.tag ≠ ParamTag.Breathiness ∧
      p.tag ≠ ParamTag.Voicing ∧ p.tag ≠ ParamTag.Tension) →
    st.satisfyEnergy = st0.satisfyEnergy ∧
      st.satisfyBreathiness = st0.satisfyBreathiness ∧
      st.satisfyVoicing = st0.satisfyVoicing ∧
      st.satisfyTension = st0.satisfyTension := by
  intro ps
  induction ps with
  | nil =>
    intro st0 st h habs
    cases h
    exact ⟨rfl, rfl, rfl, rfl⟩
  | cons p ps ih =>
    intro st0 st h habs
    simp only [acousticLoopGo] at h
    cases hstep : acousticParamStep fw T st0 p with
    | error e =>
      rw [hstep] at h
      cases h
    | ok st1 =>
      rw [hstep] at h
      dsimp only at h
      obtain ⟨hE, hB, hV, hX⟩ := habs p (List.mem_cons_self p ps)
      have h3 := step_preserves_required fw T st0 st1 p hstep hE hB hV hX
      have h4 := ih st1 st h (fun q hq => habs q (List.mem_cons_of_mem p hq))
      exact ⟨h4.1.trans h3.1, h4.2.1.trans h3.2.1, h4.2.2.1.trans h3.2.2.1,
        h4.2.2.2.trans h3.2.2.2⟩

/-- A gender parameter present with an empty value list forces the final
state to carry the zero-filled gender tensor. -/
theorem loopGo_gender_empty (fw : ℚ) (T : ℕ) :
    ∀ (ps : List InputParameter) (st0 st : AcousticLoopState),
    acousticLoopGo fw T st0 ps = Except.ok st →
    (∃ p ∈ ps, p.tag = ParamTag.Gender ∧ p.values = []) →
    lookupInput st.inputs "gender" = some (TensorVal.filled [1, (T : ℤ)] 0) ∧
      st.satisfyGender = true := by
  intro ps
  induction ps with
  | nil =>
    intro st0 st h hex
    simp at hex
  | cons p ps ih =>
    intro st0 st h hex
    simp only [acousticLoopGo] at h
    cases hstep : acousticParamStep fw T st0 p with
    | error e =>
      rw [hstep] at h
      cases h
    | ok st1 =>
      rw [hstep] at h
      dsimp only at h
      rcases hex with ⟨q, hq, htag, hvals⟩
      rcases List.mem_cons.mp hq with hqp | hqps
      · subst hqp
        have hstep' := hstep
        unfold acousticParamStep at hstep'
        rw [htag] at hstep'
        dsimp only at hstep'
        rw [hvals, resample_nil] at hstep'
        rw [if_pos rfl] at hstep'
        cases hstep'
        exact loopGo_preserves_gender fw T ps _ st h
          (lookupInput_setInput_self _ _ _) rfl
      · exact ih st1 st h ⟨q, hqps, htag, hvals⟩

/-- A velocity parameter present with an empty value list forces the final
state to carry the one-filled velocity tensor. -/
theorem loopGo_velocity_empty (fw : ℚ) (T : ℕ) :
    ∀ (ps : List InputParameter) (st0 st : AcousticLoopState),
    acousticLoopGo fw T st0 ps = Except.ok st →
    (∃ p ∈ ps, p.tag = ParamTag.Velocity ∧ p.values = []) →
    lookupInput st.inputs "velocity" = some (TensorVal.filled [1, (T : ℤ)] 1) ∧
      st.satisfyVelocity = true := by
  intro ps
  induction ps with
  | nil =>
    intro st0 st h hex
    simp at hex
  | cons p ps ih =>
    intro st0 st h hex
    simp only [acousticLoopGo] at h
    cases hstep : acousticParamStep fw T st0 p with
    | error e =>
      rw [hstep] at h
      cases h
    | ok st1 =>
      rw [hstep] at h
      dsimp only at h
      rcases hex with ⟨q, hq, htag, hvals⟩
      rcases List.mem_cons.mp hq with hqp | hqps
      · subst hqp
        have hstep' := hstep
        unfold acousticParamStep at hstep'
        rw [htag] at hstep'
        dsimp only at hstep'
        rw [hvals, resample_nil] at hstep'
        rw [if_pos rfl] at hstep'
        cases hstep'
        exact loopGo_preserves_velocity fw T ps _ st h
          (lookupInput_setInput_self _ _ _) rfl
      · exact ih st1 st h ⟨q, hqps, htag, hvals⟩

/-- A required parameter present with an empty value list fails its loop
iteration with the resample-failed message (positive frame count). -/
theorem step_required_empty (fw : ℚ) (T : ℕ) (st : AcousticLoopState)
    (p : InputParameter) (hT : 0 < T)
    (ht : p.tag = ParamTag.Energy ∨ p.tag = ParamTag.Breathiness ∨
      p.tag = ParamTag.Voicing ∨ p.tag = ParamTag.Tension)
    (hv : p.values = []) :
    acousticParamStep fw T st p =
      Except.error ("parameter " ++ p.tag.display ++ " resample failed") := by
  rcases ht with h | h | h | h <;>
    · unfold acousticParamStep
      rw [h]
      dsimp only
      rw [hv, resample_nil]
      rw [if_pos (by simp; omega)]

/-- The loop cannot succeed when a required parameter is present with an
empty value list (positive frame count). -/
theorem loopGo_required_empty_fails (fw : ℚ) (T : ℕ) (hT : 0 < T) :
    ∀ (ps : List InputParameter) (st0 st : AcousticLoopState),
    (∃ p ∈ ps, (p.tag = ParamTag.Energy ∨ p.tag = ParamTag.Breathiness ∨
      p.tag = ParamTag.Voicing ∨ p.tag = ParamTag.Tension) ∧ p.values = []) →
    acousticLoopGo fw T st0 ps ≠ Except.ok st := by
  intro ps
  induction ps with
  | nil =>
    intro st0 st hex
    simp at hex
  | cons p ps ih =>
    intro st0 st hex h
    simp only [acousticLoopGo] at h
    rcases hex with ⟨q, hq, htag, hvals⟩
    rcases List.mem_cons.mp hq with hqp | hqps
    · subst hqp
      rw [step_required_empty fw T st0 q hT htag hvals] at h
      cases h
    · cases hstep : acousticParamStep fw T st0 p with
      | error e =>
        rw [hstep] at h
        cases h
      | ok st1 =>
        rw [hstep] at h
        dsimp only at h
        exact ih st1 st ⟨q, hqps, htag, hvals⟩ h

/-- One loop iteration: the energy satisfy flag is unchanged by a
non-energy parameter and true after a successfully processed energy
parameter. -/
theorem step_flag_energy (fw : ℚ) (T : ℕ) (st st' : AcousticLoopState)
    (p : InputParameter) (h : acousticParamStep fw T st p = Except.ok st') :
    (p.tag ≠ ParamTag.Energy → st'.satisfyEnergy = st.satisfyEnergy) ∧
    (p.tag = ParamTag.Energy → st'.satisfyEnergy = true) := by
  unfold acousticParamStep at h
  cases htag : p.tag <;> rw [htag] at h <;> dsimp only at h
  case F0 =>
    cases h; exact ⟨fun _ => rfl, fun hc => by cases hc⟩
  case Pitch =>
    cases h; exact ⟨fun _ => rfl, fun hc => by cases hc⟩
  case ToneShift =>
    cases h; exact ⟨fun _ => rfl, fun hc => by cases hc⟩
  case Gender =>
    split_ifs at h with hc1 hc2 hc3 <;>
      (cases h; exact ⟨fun _ => rfl, fun hc => by cases hc⟩)
  case Velocity =>
    split_ifs at h with hc1 hc2 hc3 <;>
      (cases h; exact ⟨fun _ => rfl, fun hc => by cases hc⟩)
  case Energy =>
    split_ifs at h with hc1 hc2
    · cases h
      exact ⟨fun hne => absurd rfl hne, fun _ => rfl⟩
    · cases h
      refine ⟨fun hne => absurd rfl hne, fun _ => ?_⟩
      cases hb : st.satisfyEnergy
      · exact absurd hb hc2
      · rfl
  case Breathiness =>
    split_ifs at h with hc1 hc2 <;>
      (cases h; exact ⟨fun _ => rfl, fun hc => by cases hc⟩)
  case Voicing =>
    split_ifs at h with hc1 hc2 <;>
      (cases h; exact ⟨fun _ => rfl, fun hc => by cases hc⟩)
  case Tension =>
    split_ifs at h with hc1 hc2 <;>
      (cases h; exact ⟨fun _ => rfl, fun hc => by cases hc⟩)
  case MouthOpening =>
    split_ifs at h with hc1 hc2 <;>
      (cases h; exact ⟨fun _ => rfl, fun hc => by cases hc⟩)

/-- One loop iteration: the breathiness satisfy flag is unchanged by a
non-breathiness parameter and true after a successfully processed
breathiness parameter. -/
theorem step_flag_breathiness (fw : ℚ) (T : ℕ) (st st' : AcousticLoopState)
    (p : InputParameter) (h : acousticParamStep fw T st p = Except.ok st') :
    (p.tag ≠ ParamTag.Breathiness →
      st'.satisfyBreathiness = st.satisfyBreathiness) ∧
    (p.tag = ParamTag.Breathiness → st'.satisfyBreathiness = true) := by
  unfold acousticParamStep at h
  cases htag : p.tag <;> rw [htag] at h <;> dsimp only at h
  case F0 =>
    cases h; exact ⟨fun _ => rfl, fun hc => by cases hc⟩
  case Pitch =>
    cases h; exact ⟨fun _ => rfl, fun hc => by cases hc⟩
  case ToneShift =>
    cases h; exact ⟨fun _ => rfl, fun hc => by cases hc⟩
  case Gender =>
    split_ifs at h with hc1 hc2 hc3 <;>
      (cases h; exact ⟨fun _ => rfl, fun hc => by cases hc⟩)
  case Velocity =>
    split_ifs at h with hc1 hc2 hc3 <;>
      (cases h; exact ⟨fun _ => rfl, fun hc => by cases hc⟩)
  case Energy =>
    split_ifs at h with hc1 hc2 <;>
      (cases h; exact ⟨fun _ => rfl, fun hc => by cases hc⟩)
  case Breathiness =>
    split_ifs at h with hc1 hc2
    · cases h
      exact ⟨fun hne => absurd rfl hne, fun _ => rfl⟩
    · cases h
      refine ⟨fun hne => absurd rfl hne, fun _ => ?_⟩
      cases hb : st.satisfyBreathiness
      · exact absurd hb hc2
      · rfl
  case Voicing =>
    split_ifs at h with hc1 hc2 <;>
      (cases h; exact ⟨fun _ => rfl, fun hc => by cases hc⟩)
  case Tension =>
    split_ifs at h with hc1 hc2 <;>
      (cases h; exact ⟨fun _ => rfl, fun hc => by cases hc⟩)
  case MouthOpening =>
    split_ifs at h with hc1 hc2 <;>
      (cases h; exact ⟨fun _ => rfl, fun hc => by cases hc⟩)

/-- One loop iteration: the voicing satisfy flag is unchanged by a
non-voicing parameter and true after a successfully processed voicing
parameter. -/
theorem step_flag_voicing (fw : ℚ) (T : ℕ) (st st' : AcousticLoopState)
    (p : InputParameter) (h : acousticParamStep fw T st p = Except.ok st') :
    (p.tag ≠ ParamTag.Voicing → st'.satisfyVoicing = st.satisfyVoicing) ∧
    (p.tag = ParamTag.Voicing → st'.satisfyVoicing = true) := by
  unfold acousticParamStep at h
  cases htag : p.tag <;> rw [htag] at h <;> dsimp only at h
  case F0 =>
    cases h; exact ⟨fun _ => rfl, fun hc => by cases hc⟩
  case Pitch =>
    cases h; exact ⟨fun _ => rfl, fun hc => by cases hc⟩
  case ToneShift =>
    cases h; exact ⟨fun _ => rfl, fun hc => by cases hc⟩
  case Gender =>
    split_ifs at h with hc1 hc2 hc3 <;>
      (cases h; exact ⟨fun _ => rfl, fun hc => by cases hc⟩)
  case Velocity =>
    split_ifs at h with hc1 hc2 hc3 <;>
      (cases h; exact ⟨fun _ => rfl, fun hc => by cases hc⟩)
  case Energy =>
    split_ifs at h with hc1 hc2 <;>
      (cases h; exact ⟨fun _ => rfl, fun hc => by cases hc⟩)
  case Breathiness =>
    split_ifs at h with hc1 hc2 <;>
      (cases h; exact ⟨fun _ => rfl, fun hc => by cases hc⟩)
  case Voicing =>
    split_ifs at h with hc1 hc2
    · cases h
      exact ⟨fun hne => absurd rfl hne, fun _ => rfl⟩
    · cases h
      refine ⟨fun hne => absurd rfl hne, fun _ => ?_⟩
      cases hb : st.satisfyVoicing
      · exact absurd hb hc2
      · rfl
  case Tension =>
    split_ifs at h with hc1 hc2 <;>
      (cases h; exact ⟨fun _ => rfl, fun hc => by cases hc⟩)
  case MouthOpening =>
    split_ifs at h with hc1 hc2 <;>
      (cases h; exact ⟨fun _ => rfl, fun hc => by cases hc⟩)

/-- One loop iteration: the tension satisfy flag is unchanged by a
non-tension parameter and true after a successfully processed tension
parameter. -/
theorem step_flag_tension (fw : ℚ) (T : ℕ) (st st' : AcousticLoopState)
    (p : InputParameter) (h : acousticParamStep fw T st p = Except.ok st') :
    (p.tag ≠ ParamTag.Tension → st'.satisfyTension = st.satisfyTension) ∧
    (p.tag = ParamTag.Tension → st'.satisfyTension = true) := by
  unfold acousticParamStep at h
  cases htag : p.tag <;> rw [htag] at h <;> dsimp only at h
  case F0 =>
    cases h; exact ⟨fun _ => rfl, fun hc => by cases hc⟩
  case Pitch =>
    cases h; exact ⟨fun _ => rfl, fun hc => by cases hc⟩
  case ToneShift =>
    cases h; exact ⟨fun _ => rfl, fun hc => by cases hc⟩
  case Gender =>
    split_ifs at h with hc1 hc2 hc3 <;>
      (cases h; exact ⟨fun _ => rfl, fun hc => by cases hc⟩)
  case Velocity =>
    split_ifs at h with hc1 hc2 hc3 <;>
      (cases h; exact ⟨fun _ => rfl, fun hc => by cases hc⟩)
  case Energy =>
    split_ifs at h with hc1 hc2 <;>
      (cases h; exact ⟨fun _ => rfl, fun hc => by cases hc⟩)
  case Breathiness =>
    split_ifs at h with hc1 hc2 <;>
      (cases h; exact ⟨fun _ => rfl, fun hc => by cases hc⟩)
  case Voicing =>
    split_ifs at h with hc1 hc2 <;>
      (cases h; exact ⟨fun _ => rfl, fun hc => by cases hc⟩)
  case Tension =>
    split_ifs at h with hc1 hc2
    · cases h
      exact ⟨fun hne => absurd rfl hne, fun _ => rfl⟩
    · cases h
      refine ⟨fun hne => absurd rfl hne, fun _ => ?_⟩
      cases hb : st.satisfyTension
      · exact absurd hb hc2
      · rfl
  case MouthOpening =>
    split_ifs at h with hc1 hc2 <;>
      (cases h; exact ⟨fun _ => rfl, fun hc => by cases hc⟩)

/-- Across the loop, the energy satisfy flag is unchanged when no energy
parameter occurs, monotone in truth, and true once an energy parameter was
processed. -/
theorem loopGo_flag_energy (fw : ℚ) (T : ℕ) :
    ∀ (ps : List InputParameter) (st0 st : AcousticLoopState),
    acousticLoopGo fw T st0 ps = Except.ok st →
    ((∀ p ∈ ps, p.tag ≠ ParamTag.Energy) →
      st.satisfyEnergy = st0.satisfyEnergy) ∧
    (st0.satisfyEnergy = true → st.satisfyEnergy = true) ∧
    ((∃ p ∈ ps, p.tag = ParamTag.Energy) → st.satisfyEnergy = true) := by
  intro ps
  induction ps with
  | nil =>
    intro st0 st h
    cases h
    exact ⟨fun _ => rfl, fun h0 => h0, fun hex => by simp at hex⟩
  | cons p ps ih =>
    intro st0 st h
    simp only [acousticLoopGo] at h
    cases hstep : acousticParamStep fw T st0 p with
    | error e =>
      rw [hstep] at h
      cases h
    | ok st1 =>
      rw [hstep] at h
      dsimp only at h
      have hsf := step_flag_energy fw T st0 st1 p hstep
      have hih := ih st1 st h
      refine ⟨?_, ?_, ?_⟩
      · intro habs
        exact (hih.1 (fun q hq => habs q (List.mem_cons_of_mem p hq))).trans
          (hsf.1 (habs p (List.mem_cons_self p ps)))
      · intro h0
        by_cases htag : p.tag = ParamTag.Energy
        · exact hih.2.1 (hsf.2 htag)
        · exact hih.2.1 ((hsf.1 htag).trans h0)
      · rintro ⟨q, hq, htag⟩
        rcases List.mem_cons.mp hq with rfl | hqs
        · exact hih.2.1 (hsf.2 htag)
        · exact hih.2.2 ⟨q, hqs, htag⟩

/-- Across the loop, the breathiness satisfy flag is unchanged when no
breathiness parameter occurs, monotone in truth, and true once a
breathiness parameter was processed. -/
theorem loopGo_flag_breathiness (fw : ℚ) (T : ℕ) :
    ∀ (ps : List InputParameter) (st0 st : AcousticLoopState),
    acousticLoopGo fw T st0 ps = Except.ok st →
    ((∀ p ∈ ps, p.tag ≠ ParamTag.Breathiness) →
      st.satisfyBreathiness = st0.satisfyBreathiness) ∧
    (st0.satisfyBreathiness = true → st.satisfyBreathiness = true) ∧
    ((∃ p ∈ ps, p.tag = ParamTag.Breathiness) →
      st.satisfyBreathiness = true) := by
  intro ps
  induction ps with
  | nil =>
    intro st0 st h
    cases h
    exact ⟨fun _ => rfl, fun h0 => h0, fun hex => by simp at hex⟩
  | cons p ps ih =>
    intro st0 st h
    simp only [acousticLoopGo] at h
    cases hstep : acousticParamStep fw T st0 p with
    | error e =>
      rw [hstep] at h
      cases h
    | ok st1 =>
      rw [hstep] at h
      dsimp only at h
      have hsf := step_flag_breathiness fw T st0 st1 p hstep
      have hih := ih st1 st h
      refine ⟨?_, ?_, ?_⟩
      · intro habs
        exact (hih.1 (fun q hq => habs q (List.mem_cons_of_mem p hq))).trans
          (hsf.1 (habs p (List.mem_cons_self p ps)))
      · intro h0
        by_cases htag : p.tag = ParamTag.Breathiness
        · exact hih.2.1 (hsf.2 htag)
        · exact hih.2.1 ((hsf.1 htag).trans h0)
      · rintro ⟨q, hq, htag⟩
        rcases List.mem_cons.mp hq with rfl | hqs
        · exact hih.2.1 (hsf.2 htag)
        · exact hih.2.2 ⟨q, hqs, htag⟩

/-- Across the loop, the voicing satisfy flag is unchanged when no voicing
parameter occurs, monotone in truth, and true once a voicing parameter was
processed. -/
theorem loopGo_flag_voicing (fw : ℚ) (T : ℕ) :
    ∀ (ps : List InputParameter) (st0 st : AcousticLoopState),
    acousticLoopGo fw T st0 ps = Except.ok st →
    ((∀ p ∈ ps, p.tag ≠ ParamTag.Voicing) →
      st.satisfyVoicing = st0.satisfyVoicing) ∧
    (st0.satisfyVoicing = true → st.satisfyVoicing = true) ∧
    ((∃ p ∈ ps, p.tag = ParamTag.Voicing) → st.satisfyVoicing = true) := by
  intro ps
  induction ps with
  | nil =>
    intro st0 st h
    cases h
    exact ⟨fun _ => rfl, fun h0 => h0, fun hex => by simp at hex⟩
  | cons p ps ih =>
    intro st0 st h
    simp only [acousticLoopGo] at h
    cases hstep : acousticParamStep fw T st0 p with
    | error e =>
      rw [hstep] at h
      cases h
    | ok st1 =>
      rw [hstep] at h
      dsimp only at h
      have hsf := step_flag_voicing fw T st0 st1 p hstep
      have hih := ih st1 st h
      refine ⟨?_, ?_, ?_⟩
      · intro habs
        exact (hih.1 (fun q hq => habs q (List.mem_cons_of_mem p hq))).trans
          (hsf.1 (habs p (List.mem_cons_self p ps)))
      · intro h0
        by_cases htag : p.tag = ParamTag.Voicing
        · exact hih.2.1 (hsf.2 htag)
        · exact hih.2.1 ((hsf.1 htag).trans h0)
      · rintro ⟨q, hq, htag⟩
        rcases List.mem_cons.mp hq with rfl | hqs
        · exact hih.2.1 (hsf.2 htag)
        · exact hih.2.2 ⟨q, hqs, htag⟩

/-- Across the loop, the tension satisfy flag is unchanged when no tension
parameter occurs, monotone in truth, and true once a tension parameter was
processed. -/
theorem loopGo_flag_tension (fw : ℚ) (T : ℕ) :
    ∀ (ps : List InputParameter) (st0 st : AcousticLoopState),
    acousticLoopGo fw T st0 ps = Except.ok st →
    ((∀ p ∈ ps, p.tag ≠ ParamTag.Tension) →
      st.satisfyTension = st0.satisfyTension) ∧
    (st0.satisfyTension = true → st.satisfyTension = true) ∧
    ((∃ p ∈ ps, p.tag = ParamTag.Tension) → st.satisfyTension = true) := by
  intro ps
  induction ps with
  | nil =>
    intro st0 st h
    cases h
    exact ⟨fun _ => rfl, fun h0 => h0, fun hex => by simp at hex⟩
  | cons p ps ih =>
    intro st0 st h
    simp only [acousticLoopGo] at h
    cases hstep : acousticParamStep fw T st0 p with
    | error e =>
      rw [hstep] at h
      cases h
    | ok st1 =>
      rw [hstep] at h
      dsimp only at h
      have hsf := step_flag_tension fw T st0 st1 p hstep
      have hih := ih st1 st h
      refine ⟨?_, ?_, ?_⟩
      · intro habs
        exact (hih.1 (fun q hq => habs q (List.mem_cons_of_mem p hq))).trans
          (hsf.1 (habs p (List.mem_cons_self p ps)))
      · intro h0
        by_cases htag : p.tag = ParamTag.Tension
        · exact hih.2.1 (hsf.2 htag)
        · exact hih.2.1 ((hsf.1 htag).trans h0)
      · rintro ⟨q, hq, htag⟩
        rcases List.mem_cons.mp hq with rfl | hqs
        · exact hih.2.1 (hsf.2 htag)
        · exact hih.2.2 ⟨q, hqs, htag⟩

/-- After a successful loop, the energy flag is false exactly when the
configuration declares Energy and the input carries no energy parameter. -/
theorem energy_flag_false_iff (cfg : List ParamTag) (fw : ℚ) (T : ℕ)
    (ps : List InputParameter) (st : AcousticLoopState)
    (hloop : acousticLoop cfg fw T ps = Except.ok st) :
    st.satisfyEnergy = false ↔
      (ParamTag.Energy ∈ cfg ∧ ∀ p ∈ ps, p.tag ≠ ParamTag.Energy) := by
  have h3 := loopGo_flag_energy fw T ps (initAcousticState cfg) st hloop
  constructor
  · intro hfalse
    constructor
    · by_contra hnin
      have hinit : (initAcousticState cfg).satisfyEnergy = true := by
        simp [initAcousticState, hnin]
      rw [h3.2.1 hinit] at hfalse
      cases hfalse
    · intro p hp htag
      rw [h3.2.2 ⟨p, hp, htag⟩] at hfalse
      cases hfalse
  · rintro ⟨hm, habs⟩
    rw [h3.1 habs]
    simp [initAcousticState, hm]

/-- After a successful loop, the breathiness flag is false exactly when the
configuration declares Breathiness and the input carries no breathiness
parameter. -/
theorem breathiness_flag_false_iff (cfg : List ParamTag) (fw : ℚ) (T : ℕ)
    (ps : List InputParameter) (st : AcousticLoopState)
    (hloop : acousticLoop cfg fw T ps = Except.ok st) :
    st.satisfyBreathiness = false ↔
      (ParamTag.Breathiness ∈ cfg ∧
        ∀ p ∈ ps, p.tag ≠ ParamTag.Breathiness) := by
  have h3 := loopGo_flag_breathiness fw T ps (initAcousticState cfg) st hloop
  constructor
  · intro hfalse
    constructor
    · by_contra hnin
      have hinit : (initAcousticState cfg).satisfyBreathiness = true := by
        simp [initAcousticState, hnin]
      rw [h3.2.1 hinit] at hfalse
      cases hfalse
    · intro p hp htag
      rw [h3.2.2 ⟨p, hp, htag⟩] at hfalse
      cases hfalse
  · rintro ⟨hm, habs⟩
    rw [h3.1 habs]
    simp [initAcousticState, hm]

/-- After a successful loop, the voicing flag is false exactly when the
configuration declares Voicing and the input carries no voicing
parameter. -/
theorem voicing_flag_false_iff (cfg : List ParamTag) (fw : ℚ) (T : ℕ)
    (ps : List InputParameter) (st : AcousticLoopState)
    (hloop : acousticLoop cfg fw T ps = Except.ok st) :
    st.satisfyVoicing = false ↔
      (ParamTag.Voicing ∈ cfg ∧ ∀ p ∈ ps, p.tag ≠ ParamTag.Voicing) := by
  have h3 := loopGo_flag_voicing fw T ps (initAcousticState cfg) st hloop
  constructor
  · intro hfalse
    constructor
    · by_contra hnin
      have hinit : (initAcousticState cfg).satisfyVoicing = true := by
        simp [initAcousticState, hnin]
      rw [h3.2.1 hinit] at hfalse
      cases hfalse
    · intro p hp htag
      rw [h3.2.2 ⟨p, hp, htag⟩] at hfalse
      cases hfalse
  · rintro ⟨hm, habs⟩
    rw [h3.1 habs]
    simp [initAcousticState, hm]

/-- After a successful loop, the tension flag is false exactly when the
configuration declares Tension and the input carries no tension
parameter. -/
theorem tension_flag_false_iff (cfg : List ParamTag) (fw : ℚ) (T : ℕ)
    (ps : List InputParameter) (st : AcousticLoopState)
    (hloop : acousticLoop cfg fw T ps = Except.ok st) :
    st.satisfyTension = false ↔
      (ParamTag.Tension ∈ cfg ∧ ∀ p ∈ ps, p.tag ≠ ParamTag.Tension) := by
  have h3 := loopGo_flag_tension fw T ps (initAcousticState cfg) st hloop
  constructor
  · intro hfalse
    constructor
    · by_contra hnin
      have hinit : (initAcousticState cfg).satisfyTension = true := by
        simp [initAcousticState, hnin]
      rw [h3.2.1 hinit] at hfalse
      cases hfalse
    · intro p hp htag
      rw [h3.2.2 ⟨p, hp, htag⟩] at hfalse
      cases hfalse
  · rintro ⟨hm, habs⟩
    rw [h3.1 habs]
    simp [initAcousticState, hm]

/-- One loop iteration only captures the F0 pointer on an F0 parameter and
the Pitch pointer on a Pitch parameter. -/
theorem step_captures (fw : ℚ) (T : ℕ) (st st' : AcousticLoopState)
    (p : InputParameter) (h : acousticParamStep fw T st p = Except.ok st') :
    (p.tag ≠ ParamTag.F0 → st'.pF0 = st.pF0) ∧
    (p.tag ≠ ParamTag.Pitch → st'.pPitch = st.pPitch) := by
  unfold acousticParamStep at h
  cases htag : p.tag <;> rw [htag] at h <;> dsimp only at h
  case F0 =>
    cases h
    exact ⟨fun hne => absurd rfl hne, fun _ => rfl⟩
  case Pitch =>
    cases h
    exact ⟨fun _ => rfl, fun hne => absurd rfl hne⟩
  case ToneShift =>
    cases h
    exact ⟨fun _ => rfl, fun _ => rfl⟩
  case Gender =>
    split_ifs at h with hc1 hc2 hc3 <;>
      (cases h; exact ⟨fun _ => rfl, fun _ => rfl⟩)
  case Velocity =>
    split_ifs at h with hc1 hc2 hc3 <;>
      (cases h; exact ⟨fun _ => rfl, fun _ => rfl⟩)
  case Energy =>
    split_ifs at h with hc1 hc2 <;>
      (cases h; exact ⟨fun _ => rfl, fun _ => rfl⟩)
  case Breathiness =>
    split_ifs at h with hc1 hc2 <;>
      (cases h; exact ⟨fun _ => rfl, fun _ => rfl⟩)
  case Voicing =>
    split_ifs at h with hc1 hc2 <;>
      (cases h; exact ⟨fun _ => rfl, fun _ => rfl⟩)
  case Tension =>
    split_ifs at h with hc1 hc2 <;>
      (cases h; exact ⟨fun _ => rfl, fun _ => rfl⟩)
  case MouthOpening =>
    split_ifs at h with hc1 hc2 <;>
      (cases h; exact ⟨fun _ => rfl, fun _ => rfl⟩)

/-- Across the loop, the F0 and Pitch pointers are unchanged when no
parameter carries the respective tag. -/
theorem loopGo_captures (fw : ℚ) (T : ℕ) :
    ∀ (ps : List InputParameter) (st0 st : AcousticLoopState),
    acousticLoopGo fw T st0 ps = Except.ok st →
    ((∀ p ∈ ps, p.tag ≠ ParamTag.F0) → st.pF0 = st0.pF0) ∧
    ((∀ p ∈ ps, p.tag ≠ ParamTag.Pitch) → st.pPitch = st0.pPitch) := by
  intro ps
  induction ps with
  | nil =>
    intro st0 st h
    cases h
    exact ⟨fun _ => rfl, fun _ => rfl⟩
  | cons p ps ih =>
    intro st0 st h
    simp only [acousticLoopGo] at h
    cases hstep : acousticParamStep fw T st0 p with
    | error e =>
      rw [hstep] at h
      cases h
    | ok st1 =>
      rw [hstep] at h
      dsimp only at h
      have hsc := step_captures fw T st0 st1 p hstep
      have hih := ih st1 st h
      constructor
      · intro habs
        exact (hih.1 (fun q hq => habs q (List.mem_cons_of_mem p hq))).trans
          (hsc.1 (habs p (List.mem_cons_self p ps)))
      · intro habs
        exact (hih.2 (fun q hq => habs q (List.mem_cons_of_mem p hq))).trans
          (hsc.2 (habs p (List.mem_cons_self p ps)))

/-- A non-empty value list always resamples to exactly the target length. -/
theorem resample_length (values : List ℚ) (si ti : ℚ) (T : ℕ) (a : Bool)
    (h : values ≠ []) : (resample values si ti T a).length = T := by
  cases values with
  | nil => exact absurd rfl h
  | cons v vs => simp [resample]

/-- A loop iteration succeeds on any parameter that is not an empty-valued
required or mouth-opening parameter (positive frame count). -/
theorem step_ok_of_nonempty (fw : ℚ) (T : ℕ) (st : AcousticLoopState)
    (q : InputParameter)
    (hq : (q.tag = ParamTag.Energy ∨ q.tag = ParamTag.Breathiness ∨
      q.tag = ParamTag.Voicing ∨ q.tag = ParamTag.Tension ∨
      q.tag = ParamTag.MouthOpening) → q.values ≠ []) :
    ∃ st', acousticParamStep fw T st q = Except.ok st' := by
  unfold acousticParamStep
  cases htag : q.tag <;> dsimp only
  case F0 => exact ⟨_, rfl⟩
  case Pitch => exact ⟨_, rfl⟩
  case ToneShift => exact ⟨_, rfl⟩
  case Gender =>
    by_cases hre : resample q.values q.interval fw T true = []
    · rw [if_pos hre]
      exact ⟨_, rfl⟩
    · rw [if_neg hre]
      have hvne : q.values ≠ [] := fun hv => hre (by rw [hv, resample_nil])
      rw [if_neg (by rw [resample_length _ _ _ _ _ hvne]; omega)]
      by_cases hs : st.satisfyGender = false
      · rw [if_pos hs]
        exact ⟨_, rfl⟩
      · rw [if_neg hs]
        exact ⟨_, rfl⟩
  case Velocity =>
    by_cases hre : resample q.values q.interval fw T true = []
    · rw [if_pos hre]
      exact ⟨_, rfl⟩
    · rw [if_neg hre]
      have hvne : q.values ≠ [] := fun hv => hre (by rw [hv, resample_nil])
      rw [if_neg (by rw [resample_length _ _ _ _ _ hvne]; omega)]
      by_cases hs : st.satisfyVelocity = false
      · rw [if_pos hs]
        exact ⟨_, rfl⟩
      · rw [if_neg hs]
        exact ⟨_, rfl⟩
  case Energy =>
    have hvne : q.values ≠ [] := hq (Or.inl htag)
    rw [if_neg (by rw [resample_length _ _ _ _ _ hvne]; omega)]
    by_cases hs : st.satisfyEnergy = false
    · rw [if_pos hs]
      exact ⟨_, rfl⟩
    · rw [if_neg hs]
      exact ⟨_, rfl⟩
  case Breathiness =>
    have hvne : q.values ≠ [] := hq (Or.inr (Or.inl htag))
    rw [if_neg (by rw [resample_length _ _ _ _ _ hvne]; omega)]
    by_cases hs : st.satisfyBreathiness = false
    · rw [if_pos hs]
      exact ⟨_, rfl⟩
    · rw [if_neg hs]
      exact ⟨_, rfl⟩
  case Voicing =>
    have hvne : q.values ≠ [] := hq (Or.inr (Or.inr (Or.inl htag)))
    rw [if_neg (by rw [resample_length _ _ _ _ _ hvne]; omega)]
    by_cases hs : st.satisfyVoicing = false
    · rw [if_pos hs]
      exact ⟨_, rfl⟩
    · rw [if_neg hs]
      exact ⟨_, rfl⟩
  case Tension =>
    have hvne : q.values ≠ [] := hq (Or.inr (Or.inr (Or.inr (Or.inl htag))))
    rw [if_neg (by rw [resample_length _ _ _ _ _ hvne]; omega)]
    by_cases hs : st.satisfyTension = false
    · rw [if_pos hs]
      exact ⟨_, rfl⟩
    · rw [if_neg hs]
      exact ⟨_, rfl⟩
  case MouthOpening =>
    have hvne : q.values ≠ [] := hq (Or.inr (Or.inr (Or.inr (Or.inr htag))))
    rw [if_neg (by rw [resample_length _ _ _ _ _ hvne]; omega)]
    by_cases hs : st.satisfyMouthOpening = false
    · rw [if_pos hs]
      exact ⟨_, rfl⟩
    · rw [if_neg hs]
      exact ⟨_, rfl⟩

/-- Starting anywhere, a parameter list whose prefix holds no empty-valued
required or mouth-opening parameter fails at the first empty-valued
required parameter with that parameter's resample-failed message. -/
theorem loopGo_first_required_empty (fw : ℚ) (T : ℕ) (hT : 0 < T) :
    ∀ (ps₁ : List InputParameter) (st0 : AcousticLoopState)
      (p : InputParameter) (ps₂ : List InputParameter),
    (∀ q ∈ ps₁, (q.tag = ParamTag.Energy ∨ q.tag = ParamTag.Breathiness ∨
      q.tag = ParamTag.Voicing ∨ q.tag = ParamTag.Tension ∨
      q.tag = ParamTag.MouthOpening) → q.values ≠ []) →
    (p.tag = ParamTag.Energy ∨ p.tag = ParamTag.Breathiness ∨
      p.tag = ParamTag.Voicing ∨ p.tag = ParamTag.Tension) →
    p.values = [] →
    acousticLoopGo fw T st0 (ps₁ ++ p :: ps₂) =
      Except.error ("parameter " ++ p.tag.display ++ " resample failed") := by
  intro ps₁
  induction ps₁ with
  | nil =>
    intro st0 p ps₂ hpre htag hv
    simp only [List.nil_append, acousticLoopGo]
    rw [step_required_empty fw T st0 p hT htag hv]
  | cons q ps₁ ih =>
    intro st0 p ps₂ hpre htag hv
    obtain ⟨st1, hst1⟩ := step_ok_of_nonempty fw T st0 q
      (hpre q (List.mem_cons_self q ps₁))
    simp only [List.cons_append, acousticLoopGo]
    rw [hst1]
    exact ih st1 p ps₂ (fun r hr => hpre r (List.mem_cons_of_mem q hr)) htag hv

/--
Claim C3: a declared Gender parameter missing from the acoustic input is
supplied as a [1, targetLength] tensor of zeros and a missing Velocity as
ones, both when entirely absent and when present with an empty value list,
while a missing declared Energy, Breathiness, Voicing or Tension makes the
stage fail naming every missing one.  Corrected: the zero/one default is
attached only when the parameter is PRESENT with an empty (hence
empty-resampled) value list — an entirely absent Gender or Velocity gets
no tensor at all and causes no failure; for an arbitrary subset of the
four required parameters being declared-and-absent, the run fails (once
the f0-or-pitch selection succeeds) with a message naming exactly the
declared-and-absent ones; with both f0 and pitch absent the run fails with
the f0-or-pitch message instead; and a required parameter present with an
empty value list fails the stage with that parameter's resample-failed
message (positive frame count).
-/
theorem acoustic_optional_params_spec (cfg : List ParamTag) (fw : ℚ) (T : ℕ)
    (ps : List InputParameter) :
    (∀ st, acousticLoop cfg fw T ps = Except.ok st →
      ((∃ p ∈ ps, p.tag = ParamTag.Gender ∧ p.values = []) →
        lookupInput st.inputs "gender" =
          some (TensorVal.filled [1, (T : ℤ)] 0)) ∧
      ((∃ p ∈ ps, p.tag = ParamTag.Velocity ∧ p.values = []) →
        lookupInput st.inputs "velocity" =
          some (TensorVal.filled [1, (T : ℤ)] 1)) ∧
      (0 < T → ∀ p ∈ ps,
        (p.tag = ParamTag.Energy ∨ p.tag = ParamTag.Breathiness ∨
          p.tag = ParamTag.Voicing ∨ p.tag = ParamTag.Tension) →
        p.values ≠ []) ∧
      (((ParamTag.Energy ∈ cfg ∧ ∀ p ∈ ps, p.tag ≠ ParamTag.Energy) ∨
        (ParamTag.Breathiness ∈ cfg ∧
          ∀ p ∈ ps, p.tag ≠ ParamTag.Breathiness) ∨
        (ParamTag.Voicing ∈ cfg ∧ ∀ p ∈ ps, p.tag ≠ ParamTag.Voicing) ∨
        (ParamTag.Tension ∈ cfg ∧ ∀ p ∈ ps, p.tag ≠ ParamTag.Tension)) →
        ∀ t, selectF0 fw T st = Except.ok t →
        acousticParamsRun cfg fw T ps = Except.error
          ("some required parameters missing:" ++
            (if ParamTag.Energy ∈ cfg ∧ ∀ p ∈ ps, p.tag ≠ ParamTag.Energy
              then " \"energy\"" else "") ++
            (if ParamTag.Breathiness ∈ cfg ∧
                ∀ p ∈ ps, p.tag ≠ ParamTag.Breathiness
              then " \"breathiness\"" else "") ++
            (if ParamTag.Voicing ∈ cfg ∧ ∀ p ∈ ps, p.tag ≠ ParamTag.Voicing
              then " \"voicing\"" else "") ++
            (if ParamTag.Tension ∈ cfg ∧ ∀ p ∈ ps, p.tag ≠ ParamTag.Tension
              then " \"tension\"" else ""))) ∧
      ((∀ p ∈ ps, p.tag ≠ ParamTag.F0 ∧ p.tag ≠ ParamTag.Pitch) →
        acousticParamsRun cfg fw T ps =
          Except.error "parameter f0 or pitch missing")) ∧
    (0 < T → ∀ (ps₁ : List InputParameter) (p : InputParameter)
      (ps₂ : List InputParameter), ps = ps₁ ++ p :: ps₂ →
      (∀ q ∈ ps₁, (q.tag = ParamTag.Energy ∨ q.tag = ParamTag.Breathiness ∨
        q.tag = ParamTag.Voicing ∨ q.tag = ParamTag.Tension ∨
        q.tag = ParamTag.MouthOpening) → q.values ≠ []) →
      (p.tag = ParamTag.Energy ∨ p.tag = ParamTag.Breathiness ∨
        p.tag = ParamTag.Voicing ∨ p.tag = ParamTag.Tension) →
      p.values = [] →
      acousticParamsRun cfg fw T ps =
        Except.error ("parameter " ++ p.tag.display ++ " resample failed")) := by
  constructor
  · intro st hloop
    refine ⟨?_, ?_, ?_, ?_, ?_⟩
    · intro hex
      exact (loopGo_gender_empty fw T ps _ st hloop hex).1
    · intro hex
      exact (loopGo_velocity_empty fw T ps _ st hloop hex).1
    · intro hT p hp htag hvals
      exact loopGo_required_empty_fails fw T hT ps _ st ⟨p, hp, htag, hvals⟩
        hloop
    · intro hmiss t hsel
      have hEiff := energy_flag_false_iff cfg fw T ps st hloop
      have hBiff := breathiness_flag_false_iff cfg fw T ps st hloop
      have hViff := voicing_flag_false_iff cfg fw T ps st hloop
      have hXiff := tension_flag_false_iff cfg fw T ps st hloop
      have hor : st.satisfyEnergy = false ∨ st.satisfyBreathiness = false ∨
          st.satisfyVoicing = false ∨ st.satisfyTension = false := by
        rcases hmiss with h | h | h | h
        · exact Or.inl (hEiff.mpr h)
        · exact Or.inr (Or.inl (hBiff.mpr h))
        · exact Or.inr (Or.inr (Or.inl (hViff.mpr h)))
        · exact Or.inr (Or.inr (Or.inr (hXiff.mpr h)))
      have e1 : (if st.satisfyEnergy = false then " \"energy\"" else "") =
          (if ParamTag.Energy ∈ cfg ∧ ∀ p ∈ ps, p.tag ≠ ParamTag.Energy
            then " \"energy\"" else "") := if_congr hEiff rfl rfl
      have e2 : (if st.satisfyBreathiness = false
            then " \"breathiness\"" else "") =
          (if ParamTag.Breathiness ∈ cfg ∧
              ∀ p ∈ ps, p.tag ≠ ParamTag.Breathiness
            then " \"breathiness\"" else "") := if_congr hBiff rfl rfl
      have e3 : (if st.satisfyVoicing = false then " \"voicing\"" else "") =
          (if ParamTag.Voicing ∈ cfg ∧ ∀ p ∈ ps, p.tag ≠ ParamTag.Voicing
            then " \"voicing\"" else "") := if_congr hViff rfl rfl
      have e4 : (if st.satisfyTension = false then " \"tension\"" else "") =
          (if ParamTag.Tension ∈ cfg ∧ ∀ p ∈ ps, p.tag ≠ ParamTag.Tension
            then " \"tension\"" else "") := if_congr hXiff rfl rfl
      unfold acousticParamsRun
      rw [hloop]
      dsimp only
      rw [hsel]
      dsimp only
      rw [if_pos hor]
      unfold missingMsg
      rw [e1, e2, e3, e4]
    · intro habs
      have hcap := loopGo_captures fw T ps (initAcousticState cfg) st hloop
      have hf : st.pF0 = none := hcap.1 (fun p hp => (habs p hp).1)
      have hpp : st.pPitch = none := hcap.2 (fun p hp => (habs p hp).2)
      have hsel : selectF0 fw T st =
          Except.error "parameter f0 or pitch missing" := by
        unfold selectF0
        rw [hf]
        dsimp only
        rw [hpp]
      unfold acousticParamsRun
      rw [hloop]
      dsimp only
      rw [hsel]
  · intro hT ps₁ p ps₂ hps hpre htag hv
    subst hps
    unfold acousticParamsRun acousticLoop
    rw [loopGo_first_required_empty fw T hT ps₁ (initAcousticState cfg) p ps₂
      hpre htag hv]

/--
Witness for the acoustic parameter claim: under a configuration declaring
gender, velocity, energy and voicing (a proper subset of the four required
parameters), an input with empty-valued gender and velocity, a pitch curve
and no required parameter gets the gender and velocity defaults attached,
and the run fails naming exactly energy and voicing.
-/
theorem acoustic_optional_params_spec_witness :
    lookupInput acousticStW.inputs "gender" =
      some (TensorVal.filled [1, 1] 0) ∧
    lookupInput acousticStW.inputs "velocity" =
      some (TensorVal.filled [1, 1] 1) ∧
    acousticParamsRun acousticCfgW 1 1 acousticPsW = Except.error
      "some required parameters missing: \"energy\" \"voicing\"" := by
  have h := (acoustic_optional_params_spec acousticCfgW 1 1 acousticPsW).1
    acousticStW rfl
  refine ⟨h.1 ⟨⟨ParamTag.Gender, [], 1⟩, by simp [acousticPsW], rfl, rfl⟩,
    h.2.1 ⟨⟨ParamTag.Velocity, [], 1⟩, by simp [acousticPsW], rfl, rfl⟩,
    (h.2.2.2.1 (Or.inl (by decide)) (TensorVal.f0FromMidi [10])
      (by simp [acousticStW, selectF0, processF0Param, resample_one])).trans
      (congrArg Except.error (by decide))⟩

/--
A configuration-declared Gender parameter that is entirely absent from the
acoustic input yields a successful run whose session inputs contain no
"gender" key at all, where the claim promises a zero-filled tensor.
-/
theorem acoustic_gender_absent_counterexample :
    acousticParamsRun [ParamTag.Gender] 1 1 [⟨ParamTag.Pitch, [10], 1⟩] =
      Except.ok [("f0", TensorVal.f0FromMidi [10])] ∧
    lookupInput [("f0", TensorVal.f0FromMidi [10])] "gender" = none := by
  constructor
  · simp [acousticParamsRun, acousticLoop, acousticLoopGo, acousticParamStep,
      initAcousticState, selectF0, processF0Param, resample_one, setInput]
  · rfl
